import Mathlib

/-!
ST54J secure-element SPI driver (`drivers/nfc/ese/st54j_se.c`)

A shallow embedding of the character-device entry points of the driver
(`st54j_se_open`, `st54j_se_release`, `st54j_se_write`, `st54j_se_read`,
`st54j_se_ioctl`) and the properties of its chunked transfer engine, its
exclusive-open flag and its reset pulse.

Modelling conventions.

* The device structure is passed explicitly and returned updated.
* Everything the driver does to its collaborators (mutex, user-memory copies,
  SPI transfers, reset GPIO, sleeping) is recorded, in program order, in a
  trace of `Event`s.
* What the collaborators answer is read from an `Env`: the return value of the
  n-th call of each primitive inside one operation, and the bytes the bus
  delivers.
* Memory (the caller's buffer and the two on-stack scratch buffers) is a map
  from offsets to bytes; the caller's pointer `ubuf` is offset `0` of `umem`.
* C integer conversions are explicit (`int_of_ulong`, `ssize_t_of_ulong`).
* A `mutex_lock` that has to wait for another holder is not modelled: the
  operations are sequential, the lock is a flag plus two trace events.
-/

namespace ST54J

/-! ## Constants -/

/-- The bus block size, `#define ST54_MAX_BUF 258U`. -/
def ST54_MAX_BUF : Nat := 258

/-- Modelled from the spec: `INT_MAX` comes from the kernel headers, which are
not among the sources; it is the largest 32-bit signed value, the length bound
of the transfer engine. -/
def INT_MAX : Nat := 2147483647

/-- Modelled from the spec: the errno constants come from the kernel's
`errno-base.h`, which is not among the sources. The spec only names the error
kind (`CopyFault`); the value is the one of Linux. -/
def EFAULT : Int := 14

/-- Modelled from the spec: errno of `AlreadyOpen` (`errno-base.h`, not among
the sources). -/
def EBUSY : Int := 16

/-- Modelled from the spec: errno of `LineUnavailable` (`errno-base.h`, not
among the sources). -/
def ENODEV : Int := 19

/-- Modelled from the spec: errno of `InvalidLength` (`errno-base.h`, not among
the sources). -/
def EINVAL : Int := 22

/-- Modelled from the spec: the ioctl number encoding `_IOC(dir, type, nr, size)`
of `asm-generic/ioctl.h` (not among the sources): `nr` in bits 0..7, `type` in
bits 8..15, `size` in bits 16..29, `dir` in bits 30..31. -/
def _IOC (dir type nr size : Nat) : Nat :=
  dir * 2 ^ 30 + size * 2 ^ 16 + type * 2 ^ 8 + nr

/-- Modelled from the spec: `_IOR(type, nr, T)` of `asm-generic/ioctl.h` (not
among the sources) is `_IOC(_IOC_READ, type, nr, sizeof(T))` with
`_IOC_READ = 2`; the size argument is `sizeof(T)`. -/
def _IOR (type nr size : Nat) : Nat := _IOC 2 type nr size

/-- The magic number, `#define ST54J_SE_MAGIC 0xE5`. -/
def ST54J_SE_MAGIC : Nat := 0xE5

/-- The reset command, `_IOR(ST54J_SE_MAGIC, 0x01, unsigned int)`, with
`sizeof(unsigned int) = 4`. -/
def ST54J_SE_RESET : Nat := _IOR ST54J_SE_MAGIC 0x01 4

/-! ## Data model -/

/-- A byte of payload; the driver only moves bytes, it never inspects them. -/
abbrev Byte := Nat

/-- The value of a `struct gpio_desc *` as `gpiod_get` hands it out: a
descriptor, or an error pointer `ERR_PTR(-errno)`. -/
inductive gpio_desc_ptr where
  | desc (id : Nat)
  | err_ptr (errno : Int)
deriving DecidableEq, Repr

/-- The kernel's `IS_ERR` on a descriptor pointer. -/
def IS_ERR : gpio_desc_ptr → Bool
  | gpio_desc_ptr.desc _ => false
  | gpio_desc_ptr.err_ptr _ => true

/-- The fields of `struct st54j_se_dev` that the entry points read or write:
the open flag, the reset descriptor, and the mutex as a held/free flag. -/
structure st54j_se_dev where
  device_open : Bool
  gpiod_se_reset : gpio_desc_ptr
  mutex_locked : Bool
deriving DecidableEq, Repr

/-- What the driver does to its collaborators, in program order. -/
inductive Event where
  | mutex_lock
  | mutex_unlock
  | copy_from_user (src n : Nat)
  | copy_to_user (dst : Nat) (data : List Byte)
  | spi_write (data : List Byte)
  | spi_read (n : Nat)
  | gpiod_set_value (line : gpio_desc_ptr) (value : Nat)
  | usleep_range (min max : Nat)
deriving DecidableEq, Repr

/-- The answers of the collaborators within one operation. `call` counts the
calls of the primitive from `0`.

* `copy_from_user call src n`, `copy_to_user call dst n`: the number of bytes
  that could not be copied (`0` is success);
* `spi_write call data`, `spi_read call n`: `0` or a negative errno;
* `spi_rx call j`: byte `j` of what the bus delivers on read number `call`;
* `tx_buf_init`: the indeterminate initial contents of the on-stack `tx_buf`. -/
structure Env where
  copy_from_user : Nat → Nat → Nat → Nat
  copy_to_user : Nat → Nat → Nat → Nat
  spi_write : Nat → List Byte → Int
  spi_read : Nat → Nat → Int
  spi_rx : Nat → Nat → Byte
  tx_buf_init : Nat → Byte

/-- Result of an entry point that does not touch user memory. -/
structure Outcome where
  ret : Int
  dev : st54j_se_dev
  trace : List Event
deriving DecidableEq, Repr

/-- Result of `st54j_se_read`: as `Outcome`, plus the user memory afterwards. -/
structure ReadOutcome where
  ret : Int
  dev : st54j_se_dev
  umem : Nat → Byte
  trace : List Event

/-! ## C integer conversions -/

/-- Conversion of an `unsigned long`/`size_t` value to `int`: the low 32 bits,
read as two's complement. -/
def int_of_ulong (v : Nat) : Int :=
  if v % 4294967296 < 2147483648 then (v % 4294967296 : Nat)
  else ((v % 4294967296 : Nat) : Int) - 4294967296

/-- Conversion of an `unsigned long`/`size_t` value to `ssize_t`: the low 64
bits, read as two's complement. -/
def ssize_t_of_ulong (v : Nat) : Int :=
  if v % 18446744073709551616 < 9223372036854775808 then (v % 18446744073709551616 : Nat)
  else ((v % 18446744073709551616 : Nat) : Int) - 18446744073709551616

/-! ## Memory -/

/-- The `n` bytes of memory `m` starting at offset `a`. -/
def bytesAt (m : Nat → Byte) (a n : Nat) : List Byte :=
  (List.range n).map (fun j => m (a + j))

/-- Memory `dst` after the first `n` bytes of `src` were stored at offset `a`. -/
def store (dst : Nat → Byte) (a : Nat) (src : Nat → Byte) (n : Nat) : Nat → Byte :=
  fun x => if a ≤ x ∧ x < a + n then src (x - a) else dst x

/-! ## The mutex -/

/-- Acquire the device mutex: `mutex_lock(&ese_dev->mutex)`. -/
def mutex_lock (d : st54j_se_dev) : st54j_se_dev := { d with mutex_locked := true }

/-- Release the device mutex: `mutex_unlock(&ese_dev->mutex)`. -/
def mutex_unlock (d : st54j_se_dev) : st54j_se_dev := { d with mutex_locked := false }

/-! ## Entry points -/

/-- Body of `st54j_se_ioctl`. The argument `arg` is never read, as in the
source. -/
def st54j_se_ioctl (ese_dev : st54j_se_dev) (cmd arg : Nat) : Outcome :=
  let _ := arg
  if cmd = ST54J_SE_RESET then
    let d := mutex_lock ese_dev
    if !IS_ERR d.gpiod_se_reset then
      /- pulse low for 5 millisecs -/
      { ret := 0
        dev := mutex_unlock d
        trace := [Event.mutex_lock,
                  Event.gpiod_set_value d.gpiod_se_reset 0,
                  Event.usleep_range 5000 5500,
                  Event.gpiod_set_value d.gpiod_se_reset 1,
                  Event.mutex_unlock] }
    else
      { ret := -ENODEV
        dev := mutex_unlock d
        trace := [Event.mutex_lock, Event.mutex_unlock] }
  else
    { ret := 0, dev := ese_dev, trace := [] }

/-- Body of `st54j_se_open`: refuse with `-EBUSY` when the flag is set, else
set it. The bookkeeping of `filp->private_data` is not modelled: the device is
passed to every entry point directly. -/
def st54j_se_open (ese_dev : st54j_se_dev) : Int × st54j_se_dev :=
  if ese_dev.device_open then (-EBUSY, ese_dev)
  else (0, { ese_dev with device_open := true })

/-- Body of `st54j_se_release`: clear the flag, return `0`. -/
def st54j_se_release (ese_dev : st54j_se_dev) : Int × st54j_se_dev :=
  (0, { ese_dev with device_open := false })

/-- Put events in front of the trace of a loop result. -/
def emit (evs : List Event) (r : Int × List Event) : Int × List Event :=
  (r.1, evs ++ r.2)

/-- The `while (bytes > 0)` loop of `st54j_se_write` together with the
`ret = len` that follows it, for a block size `maxBuf`. `ubuf` is the current
offset of the user pointer, `bytes` what is left, `call` the number of
iterations so far, `tx_buf` the scratch buffer. Returns the value of `ret` at
label `err` and the events of the loop. The answer of `copy_from_user` is
capped at the size asked for (it counts bytes of the request); it is assigned
to the `int ret`, as are the answer of `spi_write` and finally `len`. -/
def st54j_se_write_loop (maxBuf : Nat) (hpos : 0 < maxBuf) (env : Env) (umem : Nat → Byte)
    (len : Nat) (ubuf bytes call : Nat) (tx_buf : Nat → Byte) : Int × List Event :=
  if hb : bytes > 0 then
    let block := if bytes < maxBuf then bytes else maxBuf
    let notCopied := min (env.copy_from_user call ubuf block) block
    if notCopied ≠ 0 then
      (int_of_ulong notCopied, [Event.copy_from_user ubuf block])
    else
      let tx_buf := store tx_buf 0 (fun j => umem (ubuf + j)) block
      let ret := env.spi_write call (bytesAt tx_buf 0 block)
      if ret < 0 then
        (ret, [Event.copy_from_user ubuf block, Event.spi_write (bytesAt tx_buf 0 block)])
      else
        emit [Event.copy_from_user ubuf block, Event.spi_write (bytesAt tx_buf 0 block)]
          (st54j_se_write_loop maxBuf hpos env umem len (ubuf + block) (bytes - block)
            (call + 1) tx_buf)
  else
    (int_of_ulong len, [])
termination_by bytes
decreasing_by
  simp_wf
  split <;> omega

/-- Body of `st54j_se_write` for a block size `maxBuf`. -/
def st54j_se_write_chunked (maxBuf : Nat) (hpos : 0 < maxBuf) (ese_dev : st54j_se_dev)
    (env : Env) (umem : Nat → Byte) (len : Nat) : Outcome :=
  if len > INT_MAX then
    { ret := -EINVAL, dev := ese_dev, trace := [] }
  else
    let d := mutex_lock ese_dev
    let r := st54j_se_write_loop maxBuf hpos env umem len 0 len 0 env.tx_buf_init
    { ret := r.1
      dev := mutex_unlock d
      trace := [Event.mutex_lock] ++ r.2 ++ [Event.mutex_unlock] }

/-- The entry point `st54j_se_write`: the body at block size `ST54_MAX_BUF`. -/
def st54j_se_write (ese_dev : st54j_se_dev) (env : Env) (umem : Nat → Byte) (len : Nat) :
    Outcome :=
  st54j_se_write_chunked ST54_MAX_BUF (by decide) ese_dev env umem len

/-- Put events in front of the trace of a read-loop result. -/
def emitR (evs : List Event) (r : Int × (Nat → Byte) × List Event) :
    Int × (Nat → Byte) × List Event :=
  (r.1, r.2.1, evs ++ r.2.2)

/-- The `while (bytes > 0)` loop of `st54j_se_read` together with the
`ret = len` that follows it, for a block size `maxBuf`. Returns the value of
`ret` at label `err`, the user memory, and the events of the loop. The answer
of `copy_to_user` is capped at the size asked for; a `copy_to_user` that fails
has stored the bytes it did copy. Here `ret` is an `ssize_t`. -/
def st54j_se_read_loop (maxBuf : Nat) (hpos : 0 < maxBuf) (env : Env) (umem : Nat → Byte)
    (len : Nat) (ubuf bytes call : Nat) (rx_buf : Nat → Byte) :
    Int × (Nat → Byte) × List Event :=
  if hb : bytes > 0 then
    let block := if bytes < maxBuf then bytes else maxBuf
    let ret := env.spi_read call block
    if ret < 0 then
      (ret, umem, [Event.spi_read block])
    else
      let rx_buf := store rx_buf 0 (env.spi_rx call) block
      let notCopied := min (env.copy_to_user call ubuf block) block
      let umem := store umem ubuf rx_buf (block - notCopied)
      if notCopied ≠ 0 then
        (ssize_t_of_ulong notCopied, umem,
          [Event.spi_read block, Event.copy_to_user ubuf (bytesAt rx_buf 0 block)])
      else
        emitR [Event.spi_read block, Event.copy_to_user ubuf (bytesAt rx_buf 0 block)]
          (st54j_se_read_loop maxBuf hpos env umem len (ubuf + block) (bytes - block)
            (call + 1) rx_buf)
  else
    (ssize_t_of_ulong len, umem, [])
termination_by bytes
decreasing_by
  simp_wf
  split <;> omega

/-- Body of `st54j_se_read` for a block size `maxBuf`; `rx_buf` starts zeroed
(`char rx_buf[ST54_MAX_BUF] = {0}`). -/
def st54j_se_read_chunked (maxBuf : Nat) (hpos : 0 < maxBuf) (ese_dev : st54j_se_dev)
    (env : Env) (umem : Nat → Byte) (len : Nat) : ReadOutcome :=
  if len > INT_MAX then
    { ret := -EINVAL, dev := ese_dev, umem := umem, trace := [] }
  else
    let d := mutex_lock ese_dev
    let r := st54j_se_read_loop maxBuf hpos env umem len 0 len 0 (fun _ => 0)
    { ret := r.1
      dev := mutex_unlock d
      umem := r.2.1
      trace := [Event.mutex_lock] ++ r.2.2 ++ [Event.mutex_unlock] }

/-- The entry point `st54j_se_read`: the body at block size `ST54_MAX_BUF`. -/
def st54j_se_read (ese_dev : st54j_se_dev) (env : Env) (umem : Nat → Byte) (len : Nat) :
    ReadOutcome :=
  st54j_se_read_chunked ST54_MAX_BUF (by decide) ese_dev env umem len

/-! ## Vocabulary of the properties -/

/-- Number of blocks of a transfer of `L` bytes at block size `B`: `ceil(L/B)`. -/
def blockCount (B L : Nat) : Nat := (L + B - 1) / B

/-- Size of block `i` (from `0`) of a transfer of `L` bytes at block size `B`:
the block covers the offsets from `i * B` up to `min ((i + 1) * B) L`. -/
def blockSize (B L i : Nat) : Nat := min ((i + 1) * B) L - i * B

/-- The payloads of the bus writes of a trace, in call order. -/
def busWrites : List Event → List (List Byte)
  | [] => []
  | Event.spi_write data :: t => data :: busWrites t
  | _ :: t => busWrites t

/-- The sizes of the bus reads of a trace, in call order. -/
def busReads : List Event → List Nat
  | [] => []
  | Event.spi_read n :: t => n :: busReads t
  | _ :: t => busReads t

/-- The user-to-kernel copies of a trace: source offset and size. -/
def copiesIn : List Event → List (Nat × Nat)
  | [] => []
  | Event.copy_from_user src n :: t => (src, n) :: copiesIn t
  | _ :: t => copiesIn t

/-- The kernel-to-user copies of a trace: destination offset and bytes. -/
def copiesOut : List Event → List (Nat × List Byte)
  | [] => []
  | Event.copy_to_user dst data :: t => (dst, data) :: copiesOut t
  | _ :: t => copiesOut t

/-- The reset-line activity of a trace: level changes and waits. -/
def lineOps : List Event → List Event
  | [] => []
  | Event.gpiod_set_value l v :: t => Event.gpiod_set_value l v :: lineOps t
  | Event.usleep_range a b :: t => Event.usleep_range a b :: lineOps t
  | _ :: t => lineOps t

/-- Number of bus calls (writes and reads) of a trace. -/
def busCalls (tr : List Event) : Nat := (busWrites tr).length + (busReads tr).length

/-- The events of block `i` of a successful write of `L` bytes. -/
def writeBlock (B : Nat) (umem : Nat → Byte) (L i : Nat) : List Event :=
  [Event.copy_from_user (i * B) (blockSize B L i),
   Event.spi_write (bytesAt umem (i * B) (blockSize B L i))]

/-- The events of the first `m` blocks of a successful write of `L` bytes. -/
def writeBlocks (B : Nat) (umem : Nat → Byte) (L : Nat) : Nat → List Event
  | 0 => []
  | m + 1 => writeBlocks B umem L m ++ writeBlock B umem L m

/-- The bytes the bus delivers as block `i` of a read of `L` bytes. -/
def rxBlock (B : Nat) (env : Env) (L i : Nat) : List Byte :=
  bytesAt (env.spi_rx i) 0 (blockSize B L i)

/-- The events of block `i` of a successful read of `L` bytes. -/
def readBlock (B : Nat) (env : Env) (L i : Nat) : List Event :=
  [Event.spi_read (blockSize B L i), Event.copy_to_user (i * B) (rxBlock B env L i)]

/-- The events of the first `m` blocks of a successful read of `L` bytes. -/
def readBlocks (B : Nat) (env : Env) (L : Nat) : Nat → List Event
  | 0 => []
  | m + 1 => readBlocks B env L m ++ readBlock B env L m

/-- The user memory after the first `m` blocks of a successful read of `L`
bytes were stored. -/
def readMem (B : Nat) (env : Env) (umem : Nat → Byte) (L : Nat) : Nat → (Nat → Byte)
  | 0 => umem
  | m + 1 => store (readMem B env umem L m) (m * B) (env.spi_rx m) (blockSize B L m)

/-- A call of the file layer that changes the open flag. -/
inductive FileCall where
  | do_open
  | do_release
deriving DecidableEq, Repr

/-- Result and next state of one `FileCall`. -/
def applyCall (d : st54j_se_dev) : FileCall → Int × st54j_se_dev
  | FileCall.do_open => st54j_se_open d
  | FileCall.do_release => st54j_se_release d

/-- The session after a sequence of open and release calls. -/
def runCalls (d : st54j_se_dev) (calls : List FileCall) : st54j_se_dev :=
  calls.foldl (fun s c => (applyCall s c).2) d

/-! ## Session setup -/

/-- Modelled from the spec: errno of a failed allocation (`errno-base.h`, not
among the sources); the spec folds it into `ResourceAcquisitionFailed`. -/
def ENOMEM : Int := 12

/-- The calls `st54j_se_probe` makes, in program order. -/
inductive ProbeEvent where
  | kmalloc_ese_dev
  | kmalloc_spi_param
  | gpiod_get
  | mutex_init
  | misc_register
  | mutex_destroy
  | spi_set_drvdata
deriving DecidableEq, Repr

/-- The answers `st54j_se_probe` gets.

* `np`: whether `dev_of_node` found device tree data;
* `kmalloc_ese_dev`: `none` for `NULL`, else the contents of the memory
  `kmalloc` hands out, which `kmalloc` does not initialise;
* `kmalloc_spi_param`: whether the second allocation succeeded;
* `gpiod_get`: the descriptor or error pointer for `"esereset"`;
* `misc_register`: `0` or an errno. -/
structure ProbeEnv where
  np : Bool
  kmalloc_ese_dev : Option st54j_se_dev
  kmalloc_spi_param : Bool
  gpiod_get : gpio_desc_ptr
  misc_register : Int

/-- Result of `st54j_se_probe`: the return value, the device behind the
registered misc device (`none` when nothing was registered), the calls made. -/
structure ProbeOutcome where
  ret : Int
  session : Option st54j_se_dev
  trace : List ProbeEvent
deriving DecidableEq, Repr

/-- Body of `st54j_se_probe`. Of the fields modelled, it assigns
`gpiod_se_reset` (from `gpiod_get`) and initialises the mutex (`mutex_init`);
the others keep what the allocation contained. -/
def st54j_se_probe (penv : ProbeEnv) : ProbeOutcome :=
  if !penv.np then
    { ret := -EINVAL, session := none, trace := [] }
  else
    match penv.kmalloc_ese_dev with
    | none =>
      { ret := -ENOMEM, session := none, trace := [ProbeEvent.kmalloc_ese_dev] }
    | some ese_dev =>
      if !penv.kmalloc_spi_param then
        { ret := -ENOMEM, session := none
          trace := [ProbeEvent.kmalloc_ese_dev, ProbeEvent.kmalloc_spi_param] }
      else
        let ese_dev := { ese_dev with gpiod_se_reset := penv.gpiod_get }
        if IS_ERR ese_dev.gpiod_se_reset then
          { ret := -ENODEV, session := none
            trace := [ProbeEvent.kmalloc_ese_dev, ProbeEvent.kmalloc_spi_param,
                      ProbeEvent.gpiod_get] }
        else
          let ese_dev := { ese_dev with mutex_locked := false }
          let ret := penv.misc_register
          if ret ≠ 0 then
            { ret := ret, session := none
              trace := [ProbeEvent.kmalloc_ese_dev, ProbeEvent.kmalloc_spi_param,
                        ProbeEvent.gpiod_get, ProbeEvent.mutex_init,
                        ProbeEvent.misc_register, ProbeEvent.mutex_destroy] }
          else
            { ret := 0, session := some ese_dev
              trace := [ProbeEvent.kmalloc_ese_dev, ProbeEvent.kmalloc_spi_param,
                        ProbeEvent.gpiod_get, ProbeEvent.mutex_init,
                        ProbeEvent.misc_register, ProbeEvent.spi_set_drvdata] }

/-! ## Requests -/

/-- A request through the file operations table `st54j_se_dev_fops`. -/
inductive Request where
  | do_open
  | do_release
  | do_write (env : Env) (umem : Nat → Byte) (len : Nat)
  | do_read (env : Env) (umem : Nat → Byte) (len : Nat)
  | do_ioctl (cmd arg : Nat)

/-- Serve one request: return value, session afterwards, events.
`st54j_se_open` and `st54j_se_release` call no collaborator (logging apart),
so their trace is empty. -/
def serve (d : st54j_se_dev) : Request → Outcome
  | Request.do_open =>
    { ret := (st54j_se_open d).1, dev := (st54j_se_open d).2, trace := [] }
  | Request.do_release =>
    { ret := (st54j_se_release d).1, dev := (st54j_se_release d).2, trace := [] }
  | Request.do_write env umem len => st54j_se_write d env umem len
  | Request.do_read env umem len =>
    { ret := (st54j_se_read d env umem len).ret
      dev := (st54j_se_read d env umem len).dev
      trace := (st54j_se_read d env umem len).trace }
  | Request.do_ioctl cmd arg => st54j_se_ioctl d cmd arg

/-- The session after a sequence of requests. -/
def runRequests (d : st54j_se_dev) (reqs : List Request) : st54j_se_dev :=
  reqs.foldl (fun s r => (serve s r).dev) d

/-! ## The lock along a trace -/

/-- Follow the mutex along a trace, from `held`. The walk fails (`none`) when
the mutex is taken while held, released while free, or when any other event
happens while it is free; else it ends in the final state of the mutex. -/
def lockWalk : Bool → List Event → Option Bool
  | held, [] => some held
  | held, Event.mutex_lock :: t => if held then none else lockWalk true t
  | held, Event.mutex_unlock :: t => if held then lockWalk false t else none
  | held, _ :: t => if held then lockWalk held t else none

/-- How often a trace takes the mutex. -/
def lockCount : List Event → Nat
  | [] => 0
  | Event.mutex_lock :: t => lockCount t + 1
  | _ :: t => lockCount t

/-! ## Sample inputs -/

/-- An environment in which every primitive succeeds; the bus delivers byte
`j` of read number `call` as `100 * call + j`. -/
def okEnv : Env :=
  { copy_from_user := fun _ _ _ => 0
    copy_to_user := fun _ _ _ => 0
    spi_write := fun _ _ => 0
    spi_read := fun _ _ => 0
    spi_rx := fun call j => 100 * call + j
    tx_buf_init := fun _ => 0 }

/-- As `okEnv`, but the bus refuses its second transfer (call number 1) with
`-5` (`-EIO`). -/
def busFailEnv : Env :=
  { okEnv with
    spi_write := fun call _ => if call = 1 then -5 else 0
    spi_read := fun call _ => if call = 1 then -5 else 0 }

/-- As `okEnv`, but every user-memory copy leaves one byte uncopied. -/
def copyFailEnv : Env :=
  { okEnv with
    copy_from_user := fun _ _ _ => 1
    copy_to_user := fun _ _ _ => 1 }

/-- A session that is open, with a valid reset line and the mutex free. -/
def openDev : st54j_se_dev :=
  { device_open := true, gpiod_se_reset := gpio_desc_ptr.desc 0, mutex_locked := false }

/-- An open session whose reset descriptor is `ERR_PTR(-ENOENT)`. -/
def noLineDev : st54j_se_dev :=
  { device_open := true, gpiod_se_reset := gpio_desc_ptr.err_ptr (-2), mutex_locked := false }

/-- A session that is closed, with a valid reset line and the mutex free. -/
def closedDev : st54j_se_dev :=
  { device_open := false, gpiod_se_reset := gpio_desc_ptr.desc 0, mutex_locked := false }

/-- A setup in which everything succeeds, but the memory `kmalloc` hands out
for the device is stale: its `device_open` byte is set. -/
def staleProbeEnv : ProbeEnv :=
  { np := true
    kmalloc_ese_dev := some { device_open := true
                              gpiod_se_reset := gpio_desc_ptr.err_ptr 0
                              mutex_locked := true }
    kmalloc_spi_param := true
    gpiod_get := gpio_desc_ptr.desc 0
    misc_register := 0 }

/-- A setup in which everything succeeds and the allocated memory is zero. -/
def okProbeEnv : ProbeEnv :=
  { np := true
    kmalloc_ese_dev := some { device_open := false
                              gpiod_se_reset := gpio_desc_ptr.desc 0
                              mutex_locked := false }
    kmalloc_spi_param := true
    gpiod_get := gpio_desc_ptr.desc 0
    misc_register := 0 }

/-- A setup in which the reset line cannot be had: `gpiod_get` answers
`ERR_PTR(-ENOENT)`. -/
def noLineProbeEnv : ProbeEnv :=
  { okProbeEnv with gpiod_get := gpio_desc_ptr.err_ptr (-2) }

/-! ## Memory and scratch buffers -/

theorem bytesAt_store_self (tx f : Nat → Byte) (n : Nat) :
    bytesAt (store tx 0 f n) 0 n = bytesAt f 0 n := by
  unfold bytesAt store
  apply List.map_congr_left
  intro j hj
  have := List.mem_range.mp hj
  simp [this]

theorem bytesAt_shift (umem : Nat → Byte) (a n : Nat) :
    bytesAt (fun j => umem (a + j)) 0 n = bytesAt umem a n := by
  unfold bytesAt
  simp

theorem write_loop_tx (maxBuf : Nat) (hpos : 0 < maxBuf) (env : Env) (umem : Nat → Byte)
    (len : Nat) : ∀ (bytes ubuf call : Nat) (tx tx' : Nat → Byte),
    st54j_se_write_loop maxBuf hpos env umem len ubuf bytes call tx =
      st54j_se_write_loop maxBuf hpos env umem len ubuf bytes call tx' := by
  intro bytes
  induction bytes using Nat.strong_induction_on with
  | _ bytes ih =>
    intro ubuf call tx tx'
    rw [st54j_se_write_loop, st54j_se_write_loop.eq_def _ _ _ _ _ _ _ _ tx']
    by_cases hb : bytes > 0
    · simp only [hb, dite_true, bytesAt_store_self]
      have hlt : bytes - (if bytes < maxBuf then bytes else maxBuf) < bytes := by
        split <;> omega
      rw [ih _ hlt _ _ _ (store tx' 0 (fun j => umem (ubuf + j)) (if bytes < maxBuf then bytes else maxBuf))]
    · simp [hb]

theorem emit_emit (a b : List Event) (r : Int × List Event) :
    emit a (emit b r) = emit (a ++ b) r := by
  simp [emit]

theorem emit_nil (r : Int × List Event) : emit [] r = r := by
  simp [emit]

theorem write_loop_done (B : Nat) (hpos : 0 < B) (env : Env) (umem : Nat → Byte)
    (len ubuf call : Nat) (tx : Nat → Byte) :
    st54j_se_write_loop B hpos env umem len ubuf 0 call tx = (int_of_ulong len, []) := by
  rw [st54j_se_write_loop]; simp

/-- One iteration of the write loop, with the scratch buffer eliminated. -/
theorem write_loop_step (B : Nat) (hpos : 0 < B) (env : Env) (umem : Nat → Byte)
    (len ubuf bytes call : Nat) (tx : Nat → Byte) (hb : 0 < bytes) :
    st54j_se_write_loop B hpos env umem len ubuf bytes call tx =
      if min (env.copy_from_user call ubuf (min bytes B)) (min bytes B) ≠ 0 then
        (int_of_ulong (min (env.copy_from_user call ubuf (min bytes B)) (min bytes B)),
          [Event.copy_from_user ubuf (min bytes B)])
      else if env.spi_write call (bytesAt umem ubuf (min bytes B)) < 0 then
        (env.spi_write call (bytesAt umem ubuf (min bytes B)),
          [Event.copy_from_user ubuf (min bytes B),
           Event.spi_write (bytesAt umem ubuf (min bytes B))])
      else
        emit [Event.copy_from_user ubuf (min bytes B),
              Event.spi_write (bytesAt umem ubuf (min bytes B))]
          (st54j_se_write_loop B hpos env umem len (ubuf + min bytes B) (bytes - min bytes B)
            (call + 1) tx) := by
  have hblk : (if bytes < B then bytes else B) = min bytes B := by
    split <;> omega
  rw [st54j_se_write_loop]
  simp only [gt_iff_lt, hb, dite_true, hblk, bytesAt_store_self, bytesAt_shift]
  rw [write_loop_tx B hpos env umem len _ _ _ _ tx]

theorem blockSize_eq (B L m : Nat) (h : m * B < L) :
    blockSize B L m = min (L - m * B) B := by
  unfold blockSize
  have : (m + 1) * B = m * B + B := by ring
  omega

theorem blockSize_pos (B L m : Nat) (hpos : 0 < B) (h : m * B < L) :
    0 < blockSize B L m := by
  rw [blockSize_eq B L m h]; omega

theorem lt_blockCount_iff (B L m : Nat) (hpos : 0 < B) :
    m < blockCount B L ↔ m * B < L := by
  unfold blockCount
  rw [Nat.lt_iff_add_one_le, Nat.le_div_iff_mul_le hpos]
  have : (m + 1) * B = m * B + B := by ring
  omega

/-- The write loop after `m` successful blocks. -/
theorem write_loop_unroll (B : Nat) (hpos : 0 < B) (env : Env) (umem : Nat → Byte)
    (len L : Nat) (tx : Nat → Byte) :
    ∀ m : Nat, m ≤ blockCount B L →
      (∀ j, j < m → env.copy_from_user j (j * B) (blockSize B L j) = 0) →
      (∀ j, j < m → 0 ≤ env.spi_write j (bytesAt umem (j * B) (blockSize B L j))) →
      st54j_se_write_loop B hpos env umem len 0 L 0 tx =
        emit (writeBlocks B umem L m)
          (st54j_se_write_loop B hpos env umem len (min (m * B) L) (L - min (m * B) L) m tx) := by
  intro m
  induction m with
  | zero => intro _ _ _; simp [writeBlocks, emit_nil]
  | succ m ih =>
    intro hm hc hs
    have hlt : m * B < L := (lt_blockCount_iff B L m hpos).mp hm
    have hsz := blockSize_eq B L m hlt
    have hszpos := blockSize_pos B L m hpos hlt
    rw [ih (Nat.le_of_succ_le hm) (fun j hj => hc j (Nat.lt_succ_of_lt hj))
      (fun j hj => hs j (Nat.lt_succ_of_lt hj))]
    have h1 : min (m * B) L = m * B := by omega
    have h2 : min (L - m * B) B = blockSize B L m := hsz.symm
    have hc' := hc m (Nat.lt_succ_self m)
    have hs' := hs m (Nat.lt_succ_self m)
    rw [h1, write_loop_step B hpos env umem len (m * B) (L - m * B) m tx (by omega), h2, hc']
    simp only [Nat.zero_min, ne_eq, not_true_eq_false, if_false, not_lt.mpr hs', emit_emit]
    have h3 : m * B + blockSize B L m = min ((m + 1) * B) L := by
      have : (m + 1) * B = m * B + B := by ring
      omega
    have h4 : L - m * B - blockSize B L m = L - min ((m + 1) * B) L := by
      have : (m + 1) * B = m * B + B := by ring
      omega
    rw [h3, h4]
    rfl

theorem store_store_le (umem rx f : Nat → Byte) (a n k : Nat) (hk : k ≤ n) :
    store umem a (store rx 0 f n) k = store umem a f k := by
  funext x
  unfold store
  by_cases hx : a ≤ x ∧ x < a + k
  · have : x - a < n := by omega
    simp [hx, this]
  · simp [hx]

theorem emitR_emitR (a b : List Event) (r : Int × (Nat → Byte) × List Event) :
    emitR a (emitR b r) = emitR (a ++ b) r := by
  simp [emitR]

theorem emitR_nil (r : Int × (Nat → Byte) × List Event) : emitR [] r = r := by
  simp [emitR]

theorem read_loop_rx (B : Nat) (hpos : 0 < B) (env : Env) (len : Nat) :
    ∀ (bytes : Nat) (umem : Nat → Byte) (ubuf call : Nat) (rx rx' : Nat → Byte),
    st54j_se_read_loop B hpos env umem len ubuf bytes call rx =
      st54j_se_read_loop B hpos env umem len ubuf bytes call rx' := by
  intro bytes
  induction bytes using Nat.strong_induction_on with
  | _ bytes ih =>
    intro umem ubuf call rx rx'
    rw [st54j_se_read_loop, st54j_se_read_loop.eq_def _ _ _ _ _ _ _ _ rx']
    by_cases hb : bytes > 0
    · have hlt : bytes - (if bytes < B then bytes else B) < bytes := by
        split <;> omega
      simp only [hb, dite_true, bytesAt_store_self,
        store_store_le _ _ _ _ _ _ (Nat.sub_le _ _)]
      rw [ih _ hlt _ _ _ _ (store rx' 0 (env.spi_rx call) (if bytes < B then bytes else B))]
    · simp [hb]

theorem read_loop_done (B : Nat) (hpos : 0 < B) (env : Env) (umem : Nat → Byte)
    (len ubuf call : Nat) (rx : Nat → Byte) :
    st54j_se_read_loop B hpos env umem len ubuf 0 call rx = (ssize_t_of_ulong len, umem, []) := by
  rw [st54j_se_read_loop]; simp

/-- One iteration of the read loop, with the scratch buffer eliminated. -/
theorem read_loop_step (B : Nat) (hpos : 0 < B) (env : Env) (umem : Nat → Byte)
    (len ubuf bytes call : Nat) (rx : Nat → Byte) (hb : 0 < bytes) :
    st54j_se_read_loop B hpos env umem len ubuf bytes call rx =
      if env.spi_read call (min bytes B) < 0 then
        (env.spi_read call (min bytes B), umem, [Event.spi_read (min bytes B)])
      else if min (env.copy_to_user call ubuf (min bytes B)) (min bytes B) ≠ 0 then
        (ssize_t_of_ulong (min (env.copy_to_user call ubuf (min bytes B)) (min bytes B)),
          store umem ubuf (env.spi_rx call)
            (min bytes B - min (env.copy_to_user call ubuf (min bytes B)) (min bytes B)),
          [Event.spi_read (min bytes B),
           Event.copy_to_user ubuf (bytesAt (env.spi_rx call) 0 (min bytes B))])
      else
        emitR [Event.spi_read (min bytes B),
               Event.copy_to_user ubuf (bytesAt (env.spi_rx call) 0 (min bytes B))]
          (st54j_se_read_loop B hpos env (store umem ubuf (env.spi_rx call) (min bytes B)) len
            (ubuf + min bytes B) (bytes - min bytes B) (call + 1) rx) := by
  have hblk : (if bytes < B then bytes else B) = min bytes B := by
    split <;> omega
  rw [st54j_se_read_loop]
  simp only [gt_iff_lt, hb, dite_true, hblk, bytesAt_store_self,
    store_store_le _ _ _ _ _ _ (Nat.sub_le _ _)]
  by_cases h1 : env.spi_read call (min bytes B) < 0
  · simp [h1]
  · by_cases h2 : min (env.copy_to_user call ubuf (min bytes B)) (min bytes B) = 0
    · simp only [h1, h2, if_false, ne_eq, not_true_eq_false, Nat.sub_zero]
      rw [read_loop_rx B hpos env len _ _ _ _ _ rx]
    · simp [h1, h2]

/-- The read loop after `m` successful blocks. -/
theorem read_loop_unroll (B : Nat) (hpos : 0 < B) (env : Env) (umem : Nat → Byte)
    (len L : Nat) (rx : Nat → Byte) :
    ∀ m : Nat, m ≤ blockCount B L →
      (∀ j, j < m → 0 ≤ env.spi_read j (blockSize B L j)) →
      (∀ j, j < m → env.copy_to_user j (j * B) (blockSize B L j) = 0) →
      st54j_se_read_loop B hpos env umem len 0 L 0 rx =
        emitR (readBlocks B env L m)
          (st54j_se_read_loop B hpos env (readMem B env umem L m) len (min (m * B) L)
            (L - min (m * B) L) m rx) := by
  intro m
  induction m with
  | zero => intro _ _ _; simp [readBlocks, readMem, emitR_nil]
  | succ m ih =>
    intro hm hs hc
    have hlt : m * B < L := (lt_blockCount_iff B L m hpos).mp hm
    have hsz := blockSize_eq B L m hlt
    rw [ih (Nat.le_of_succ_le hm) (fun j hj => hs j (Nat.lt_succ_of_lt hj))
      (fun j hj => hc j (Nat.lt_succ_of_lt hj))]
    have h1 : min (m * B) L = m * B := by omega
    have h2 : min (L - m * B) B = blockSize B L m := hsz.symm
    have hc' := hc m (Nat.lt_succ_self m)
    have hs' := hs m (Nat.lt_succ_self m)
    rw [h1, read_loop_step B hpos env _ len (m * B) (L - m * B) m rx (by omega), h2, hc']
    simp only [Nat.zero_min, ne_eq, not_true_eq_false, if_false, not_lt.mpr hs', emitR_emitR]
    have h3 : m * B + blockSize B L m = min ((m + 1) * B) L := by
      have : (m + 1) * B = m * B + B := by ring
      omega
    have h4 : L - m * B - blockSize B L m = L - min ((m + 1) * B) L := by
      have : (m + 1) * B = m * B + B := by ring
      omega
    rw [h3, h4]
    rfl

theorem busWrites_append (a b : List Event) :
    busWrites (a ++ b) = busWrites a ++ busWrites b := by
  induction a with
  | nil => rfl
  | cons e t ih => cases e <;> simp [busWrites, ih]

theorem busReads_append (a b : List Event) :
    busReads (a ++ b) = busReads a ++ busReads b := by
  induction a with
  | nil => rfl
  | cons e t ih => cases e <;> simp [busReads, ih]

theorem copiesIn_append (a b : List Event) :
    copiesIn (a ++ b) = copiesIn a ++ copiesIn b := by
  induction a with
  | nil => rfl
  | cons e t ih => cases e <;> simp [copiesIn, ih]

theorem copiesOut_append (a b : List Event) :
    copiesOut (a ++ b) = copiesOut a ++ copiesOut b := by
  induction a with
  | nil => rfl
  | cons e t ih => cases e <;> simp [copiesOut, ih]

theorem busWrites_writeBlocks (B : Nat) (umem : Nat → Byte) (L m : Nat) :
    busWrites (writeBlocks B umem L m) =
      (List.range m).map (fun i => bytesAt umem (i * B) (blockSize B L i)) := by
  induction m with
  | zero => rfl
  | succ m ih =>
    simp [writeBlocks, busWrites_append, ih, List.range_succ, writeBlock, busWrites]

theorem copiesIn_writeBlocks (B : Nat) (umem : Nat → Byte) (L m : Nat) :
    copiesIn (writeBlocks B umem L m) =
      (List.range m).map (fun i => (i * B, blockSize B L i)) := by
  induction m with
  | zero => rfl
  | succ m ih =>
    simp [writeBlocks, copiesIn_append, ih, List.range_succ, writeBlock, copiesIn]

theorem busReads_readBlocks (B : Nat) (env : Env) (L m : Nat) :
    busReads (readBlocks B env L m) = (List.range m).map (fun i => blockSize B L i) := by
  induction m with
  | zero => rfl
  | succ m ih =>
    simp [readBlocks, busReads_append, ih, List.range_succ, readBlock, busReads]

theorem copiesOut_readBlocks (B : Nat) (env : Env) (L m : Nat) :
    copiesOut (readBlocks B env L m) =
      (List.range m).map (fun i => (i * B, rxBlock B env L i)) := by
  induction m with
  | zero => rfl
  | succ m ih =>
    simp [readBlocks, copiesOut_append, ih, List.range_succ, readBlock, copiesOut]

theorem bytesAt_append (f : Nat → Byte) (a b : Nat) :
    bytesAt f 0 a ++ bytesAt f a b = bytesAt f 0 (a + b) := by
  unfold bytesAt
  rw [List.range_add, List.map_append, List.map_map]
  simp [Function.comp_def]

theorem bytesAt_length (f : Nat → Byte) (a n : Nat) : (bytesAt f a n).length = n := by
  simp [bytesAt]

theorem blocks_flatten (B : Nat) (umem : Nat → Byte) (L m : Nat) :
    ((List.range m).map (fun i => bytesAt umem (i * B) (blockSize B L i))).flatten =
      bytesAt umem 0 (min (m * B) L) := by
  induction m with
  | zero => simp [bytesAt]
  | succ m ih =>
    rw [List.range_succ, List.map_append, List.flatten_append, ih]
    have hmul : (m + 1) * B = m * B + B := by ring
    by_cases h : m * B < L
    · have h1 : min (m * B) L = m * B := by omega
      have h2 : min ((m + 1) * B) L = m * B + blockSize B L m := by
        unfold blockSize; omega
      rw [h1, h2, ← bytesAt_append]
      simp
    · have h1 : blockSize B L m = 0 := by unfold blockSize; omega
      have h2 : min ((m + 1) * B) L = min (m * B) L := by omega
      rw [h2]
      simp [bytesAt, h1]

theorem bytesAt_congr (f g : Nat → Byte) (a n : Nat) (h : ∀ x, a ≤ x → x < a + n → f x = g x) :
    bytesAt f a n = bytesAt g a n := by
  unfold bytesAt
  apply List.map_congr_left
  intro j hj
  have := List.mem_range.mp hj
  exact h _ (by omega) (by omega)

theorem readMem_above (B : Nat) (env : Env) (umem : Nat → Byte) (L m : Nat) :
    ∀ x, min (m * B) L ≤ x → readMem B env umem L m x = umem x := by
  induction m with
  | zero => intro x _; rfl
  | succ m ih =>
    intro x hx
    have hmul : (m + 1) * B = m * B + B := by ring
    have hbs : m * B + blockSize B L m ≤ min ((m + 1) * B) L ∨ blockSize B L m = 0 := by
      unfold blockSize; omega
    have hcond : ¬ (m * B ≤ x ∧ x < m * B + blockSize B L m) := by omega
    simp only [readMem, store, hcond, if_false]
    exact ih x (by omega)

theorem readMem_below (B : Nat) (env : Env) (umem : Nat → Byte) (L m : Nat) :
    bytesAt (readMem B env umem L m) 0 (min (m * B) L) =
      ((List.range m).map (rxBlock B env L)).flatten := by
  induction m with
  | zero => simp [bytesAt]
  | succ m ih =>
    rw [List.range_succ, List.map_append, List.flatten_append, ← ih]
    have hmul : (m + 1) * B = m * B + B := by ring
    by_cases h : m * B < L
    · have h1 : min (m * B) L = m * B := by omega
      have h2 : min ((m + 1) * B) L = m * B + blockSize B L m := by
        unfold blockSize; omega
      rw [h1, h2, ← bytesAt_append]
      congr 1
      · apply bytesAt_congr
        intro x _ hx
        have hcond : ¬ (m * B ≤ x ∧ x < m * B + blockSize B L m) := by omega
        simp [readMem, store, hcond]
      · simp only [List.map_cons, List.map_nil, List.flatten_cons, List.flatten_nil,
          List.append_nil, rxBlock]
        unfold bytesAt
        apply List.map_congr_left
        intro j hj
        have := List.mem_range.mp hj
        simp [readMem, store, this]
    · have h1 : blockSize B L m = 0 := by unfold blockSize; omega
      have h2 : min ((m + 1) * B) L = min (m * B) L := by omega
      rw [h2]
      simp only [List.map_cons, List.map_nil, List.flatten_cons, List.flatten_nil,
        List.append_nil, rxBlock, h1]
      simp only [bytesAt, List.range_zero, List.map_nil, List.append_nil]
      apply List.map_congr_left
      intro j _
      simp [readMem, store, h1]

theorem int_of_ulong_eq (L : Nat) (h : L ≤ INT_MAX) : int_of_ulong L = (L : Int) := by
  unfold INT_MAX at h
  unfold int_of_ulong
  have h1 : L % 4294967296 = L := Nat.mod_eq_of_lt (by omega)
  rw [h1]
  simp only [ite_eq_left_iff]
  intro h2
  omega

theorem ssize_t_of_ulong_eq (L : Nat) (h : L ≤ INT_MAX) : ssize_t_of_ulong L = (L : Int) := by
  unfold INT_MAX at h
  unfold ssize_t_of_ulong
  have h1 : L % 18446744073709551616 = L := Nat.mod_eq_of_lt (by omega)
  rw [h1]
  simp only [ite_eq_left_iff]
  intro h2
  omega

theorem blockCount_mul_ge (B L : Nat) (hpos : 0 < B) : L ≤ blockCount B L * B := by
  by_contra h
  have := (lt_blockCount_iff B L (blockCount B L) hpos).mpr (by omega)
  omega

/-! ## Whole transfers -/

/-- A write in which every block is copied and sent: result and trace. -/
theorem write_chunked_ok (B : Nat) (hpos : 0 < B) (dev : st54j_se_dev) (env : Env)
    (umem : Nat → Byte) (L : Nat) (hL : L ≤ INT_MAX)
    (hc : ∀ j, j < blockCount B L → env.copy_from_user j (j * B) (blockSize B L j) = 0)
    (hs : ∀ j, j < blockCount B L →
      0 ≤ env.spi_write j (bytesAt umem (j * B) (blockSize B L j))) :
    st54j_se_write_chunked B hpos dev env umem L =
      { ret := L
        dev := mutex_unlock (mutex_lock dev)
        trace := [Event.mutex_lock] ++ writeBlocks B umem L (blockCount B L) ++
          [Event.mutex_unlock] } := by
  have hge := blockCount_mul_ge B L hpos
  have hnot : ¬ L > INT_MAX := by omega
  have h := write_loop_unroll B hpos env umem L L env.tx_buf_init (blockCount B L)
    (Nat.le_refl _) hc hs
  have h1 : min (blockCount B L * B) L = L := by omega
  rw [h1, Nat.sub_self, write_loop_done] at h
  simp only [st54j_se_write_chunked, hnot, if_false, h, emit, int_of_ulong_eq L hL,
    List.append_nil]

/-- A write in which the bus refuses block `f` (counted from `0`). -/
theorem write_chunked_bus_fail (B : Nat) (hpos : 0 < B) (dev : st54j_se_dev) (env : Env)
    (umem : Nat → Byte) (L f : Nat) (hL : L ≤ INT_MAX) (hf : f < blockCount B L)
    (hc : ∀ j, j ≤ f → env.copy_from_user j (j * B) (blockSize B L j) = 0)
    (hs : ∀ j, j < f → 0 ≤ env.spi_write j (bytesAt umem (j * B) (blockSize B L j)))
    (hfail : env.spi_write f (bytesAt umem (f * B) (blockSize B L f)) < 0) :
    st54j_se_write_chunked B hpos dev env umem L =
      { ret := env.spi_write f (bytesAt umem (f * B) (blockSize B L f))
        dev := mutex_unlock (mutex_lock dev)
        trace := [Event.mutex_lock] ++ writeBlocks B umem L (f + 1) ++
          [Event.mutex_unlock] } := by
  have hnot : ¬ L > INT_MAX := by omega
  have hlt : f * B < L := (lt_blockCount_iff B L f hpos).mp hf
  have h := write_loop_unroll B hpos env umem L L env.tx_buf_init f
    (Nat.le_of_lt hf) (fun j hj => hc j (Nat.le_of_lt hj)) hs
  have h1 : min (f * B) L = f * B := by omega
  have h2 : min (L - f * B) B = blockSize B L f := (blockSize_eq B L f hlt).symm
  rw [h1, write_loop_step B hpos env umem L (f * B) (L - f * B) f _ (by omega), h2,
    hc f (Nat.le_refl f)] at h
  simp only [Nat.zero_min, ne_eq, not_true_eq_false, if_false, hfail, if_true] at h
  simp only [st54j_se_write_chunked, hnot, if_false, h, emit, writeBlocks, writeBlock]

/-- A write in which the copy of block `f` (counted from `0`) leaves `c` bytes
uncopied. -/
theorem write_chunked_copy_fail (B : Nat) (hpos : 0 < B) (dev : st54j_se_dev) (env : Env)
    (umem : Nat → Byte) (L f : Nat) (hL : L ≤ INT_MAX) (hf : f < blockCount B L)
    (hc : ∀ j, j < f → env.copy_from_user j (j * B) (blockSize B L j) = 0)
    (hs : ∀ j, j < f → 0 ≤ env.spi_write j (bytesAt umem (j * B) (blockSize B L j)))
    (hfail : env.copy_from_user f (f * B) (blockSize B L f) ≠ 0) :
    st54j_se_write_chunked B hpos dev env umem L =
      { ret := int_of_ulong (min (env.copy_from_user f (f * B) (blockSize B L f))
          (blockSize B L f))
        dev := mutex_unlock (mutex_lock dev)
        trace := [Event.mutex_lock] ++ writeBlocks B umem L f ++
          [Event.copy_from_user (f * B) (blockSize B L f)] ++ [Event.mutex_unlock] } := by
  have hnot : ¬ L > INT_MAX := by omega
  have hlt : f * B < L := (lt_blockCount_iff B L f hpos).mp hf
  have hbpos := blockSize_pos B L f hpos hlt
  have h := write_loop_unroll B hpos env umem L L env.tx_buf_init f
    (Nat.le_of_lt hf) hc hs
  have h1 : min (f * B) L = f * B := by omega
  have h2 : min (L - f * B) B = blockSize B L f := (blockSize_eq B L f hlt).symm
  have h3 : min (env.copy_from_user f (f * B) (blockSize B L f)) (blockSize B L f) ≠ 0 := by
    omega
  rw [h1, write_loop_step B hpos env umem L (f * B) (L - f * B) f _ (by omega), h2] at h
  simp only [h3, ne_eq, not_false_eq_true, if_true] at h
  simp only [st54j_se_write_chunked, hnot, if_false, h, emit, List.append_assoc]

/-- A read in which every block is received and copied: result, memory and
trace. -/
theorem read_chunked_ok (B : Nat) (hpos : 0 < B) (dev : st54j_se_dev) (env : Env)
    (umem : Nat → Byte) (L : Nat) (hL : L ≤ INT_MAX)
    (hs : ∀ j, j < blockCount B L → 0 ≤ env.spi_read j (blockSize B L j))
    (hc : ∀ j, j < blockCount B L → env.copy_to_user j (j * B) (blockSize B L j) = 0) :
    st54j_se_read_chunked B hpos dev env umem L =
      { ret := L
        dev := mutex_unlock (mutex_lock dev)
        umem := readMem B env umem L (blockCount B L)
        trace := [Event.mutex_lock] ++ readBlocks B env L (blockCount B L) ++
          [Event.mutex_unlock] } := by
  have hge := blockCount_mul_ge B L hpos
  have hnot : ¬ L > INT_MAX := by omega
  have h := read_loop_unroll B hpos env umem L L (fun _ => 0) (blockCount B L)
    (Nat.le_refl _) hs hc
  have h1 : min (blockCount B L * B) L = L := by omega
  rw [h1, Nat.sub_self, read_loop_done] at h
  simp only [st54j_se_read_chunked, hnot, if_false, h, emitR, ssize_t_of_ulong_eq L hL,
    List.append_nil]

/-- A read in which the bus refuses block `f` (counted from `0`). -/
theorem read_chunked_bus_fail (B : Nat) (hpos : 0 < B) (dev : st54j_se_dev) (env : Env)
    (umem : Nat → Byte) (L f : Nat) (hL : L ≤ INT_MAX) (hf : f < blockCount B L)
    (hs : ∀ j, j < f → 0 ≤ env.spi_read j (blockSize B L j))
    (hc : ∀ j, j < f → env.copy_to_user j (j * B) (blockSize B L j) = 0)
    (hfail : env.spi_read f (blockSize B L f) < 0) :
    st54j_se_read_chunked B hpos dev env umem L =
      { ret := env.spi_read f (blockSize B L f)
        dev := mutex_unlock (mutex_lock dev)
        umem := readMem B env umem L f
        trace := [Event.mutex_lock] ++ readBlocks B env L f ++
          [Event.spi_read (blockSize B L f)] ++ [Event.mutex_unlock] } := by
  have hnot : ¬ L > INT_MAX := by omega
  have hlt : f * B < L := (lt_blockCount_iff B L f hpos).mp hf
  have h := read_loop_unroll B hpos env umem L L (fun _ => 0) f (Nat.le_of_lt hf) hs hc
  have h1 : min (f * B) L = f * B := by omega
  have h2 : min (L - f * B) B = blockSize B L f := (blockSize_eq B L f hlt).symm
  rw [h1, read_loop_step B hpos env _ L (f * B) (L - f * B) f _ (by omega), h2] at h
  simp only [hfail, if_true] at h
  simp only [st54j_se_read_chunked, hnot, if_false, h, emitR, List.append_assoc]

/-- A read in which the copy of block `f` (counted from `0`) to the caller
leaves `c` bytes uncopied. -/
theorem read_chunked_copy_fail (B : Nat) (hpos : 0 < B) (dev : st54j_se_dev) (env : Env)
    (umem : Nat → Byte) (L f : Nat) (hL : L ≤ INT_MAX) (hf : f < blockCount B L)
    (hs : ∀ j, j ≤ f → 0 ≤ env.spi_read j (blockSize B L j))
    (hc : ∀ j, j < f → env.copy_to_user j (j * B) (blockSize B L j) = 0)
    (hfail : env.copy_to_user f (f * B) (blockSize B L f) ≠ 0) :
    (st54j_se_read_chunked B hpos dev env umem L).ret =
        ssize_t_of_ulong (min (env.copy_to_user f (f * B) (blockSize B L f))
          (blockSize B L f)) ∧
      (st54j_se_read_chunked B hpos dev env umem L).trace =
        [Event.mutex_lock] ++ readBlocks B env L (f + 1) ++ [Event.mutex_unlock] := by
  have hnot : ¬ L > INT_MAX := by omega
  have hlt : f * B < L := (lt_blockCount_iff B L f hpos).mp hf
  have hbpos := blockSize_pos B L f hpos hlt
  have h := read_loop_unroll B hpos env umem L L (fun _ => 0) f (Nat.le_of_lt hf)
    (fun j hj => hs j (Nat.le_of_lt hj)) hc
  have h1 : min (f * B) L = f * B := by omega
  have h2 : min (L - f * B) B = blockSize B L f := (blockSize_eq B L f hlt).symm
  have h3 : min (env.copy_to_user f (f * B) (blockSize B L f)) (blockSize B L f) ≠ 0 := by
    omega
  rw [h1, read_loop_step B hpos env _ L (f * B) (L - f * B) f _ (by omega), h2] at h
  simp only [not_lt.mpr (hs f (Nat.le_refl f)), h3, ne_eq, not_false_eq_true, if_true,
    if_false] at h
  simp only [st54j_se_read_chunked, hnot, if_false, h, emitR, readBlocks, readBlock, rxBlock]
  simp

/-! ## Chunked write -/

/-- C1: a write of `L` bytes (`L` at most `INT_MAX`) in which every copy and
every bus write succeeds returns `L` and issues exactly `ceil(L/258)` bus
writes; bus write `i` carries the caller bytes at the offsets from `i * 258` up
to `min ((i + 1) * 258) L`, every bus write but the last has 258 bytes, the
last has `L mod 258` bytes (258 when 258 divides `L`), and the blocks
concatenated in call order are the caller buffer. At block size 4 the bytes
1..10 go out as `[1,2,3,4]`, `[5,6,7,8]`, `[9,10]` and the result is 10. -/
theorem st54j_se_write_chunking (dev : st54j_se_dev) (env : Env) (umem : Nat → Byte)
    (L : Nat) (hL : L ≤ INT_MAX)
    (hcopy : ∀ i, i < blockCount ST54_MAX_BUF L →
      env.copy_from_user i (i * ST54_MAX_BUF) (blockSize ST54_MAX_BUF L i) = 0)
    (hbus : ∀ i, i < blockCount ST54_MAX_BUF L →
      0 ≤ env.spi_write i (bytesAt umem (i * ST54_MAX_BUF) (blockSize ST54_MAX_BUF L i))) :
    (st54j_se_write dev env umem L).ret = L ∧
    (busWrites (st54j_se_write dev env umem L).trace).length = (L + 257) / 258 ∧
    (∀ i, i < (L + 257) / 258 →
      (busWrites (st54j_se_write dev env umem L).trace)[i]? =
        some (bytesAt umem (i * 258) (min ((i + 1) * 258) L - i * 258))) ∧
    (∀ i, i + 1 < (L + 257) / 258 →
      ((busWrites (st54j_se_write dev env umem L).trace)[i]?).map List.length = some 258) ∧
    (0 < L →
      ((busWrites (st54j_se_write dev env umem L).trace)[(L + 257) / 258 - 1]?).map List.length =
        some (if L % 258 = 0 then 258 else L % 258)) ∧
    (busWrites (st54j_se_write dev env umem L).trace).flatten = bytesAt umem 0 L ∧
    (st54j_se_write_chunked 4 (by decide) dev okEnv (fun a => a + 1) 10).ret = 10 ∧
    busWrites (st54j_se_write_chunked 4 (by decide) dev okEnv (fun a => a + 1) 10).trace =
      [[1, 2, 3, 4], [5, 6, 7, 8], [9, 10]] := by
  have hn : blockCount ST54_MAX_BUF L = (L + 257) / 258 := rfl
  have key := write_chunked_ok ST54_MAX_BUF (by decide) dev env umem L hL hcopy hbus
  have hw : busWrites (st54j_se_write dev env umem L).trace =
      (List.range ((L + 257) / 258)).map
        (fun i => bytesAt umem (i * 258) (min ((i + 1) * 258) L - i * 258)) := by
    unfold st54j_se_write
    rw [key]
    simp only [busWrites_append, busWrites_writeBlocks, hn]
    simp [busWrites, ST54_MAX_BUF, blockSize]
  have hflat := blocks_flatten 258 umem L ((L + 257) / 258)
  have hex := write_chunked_ok 4 (by decide) dev okEnv (fun a => a + 1) 10 (by decide)
    (fun _ _ => rfl) (fun _ _ => Int.le_refl 0)
  refine ⟨?_, ?_, ?_, ?_, ?_, ?_, ?_, ?_⟩
  · unfold st54j_se_write; rw [key]
  · rw [hw]; simp
  · intro i hi
    rw [hw, List.getElem?_map, List.getElem?_range hi]
    rfl
  · intro i hi
    rw [hw, List.getElem?_map, List.getElem?_range (by omega)]
    simp only [Option.map_some', bytesAt_length, Option.some.injEq]
    omega
  · intro hpos
    rw [hw, List.getElem?_map, List.getElem?_range (by omega)]
    simp only [Option.map_some', bytesAt_length, Option.some.injEq]
    split <;> omega
  · rw [hw]
    unfold blockSize at hflat
    rw [hflat]
    congr 1
    omega
  · rw [hex]; rfl
  · rw [hex]; rfl

/-- Witness of C1: a 600-byte write through `okEnv` goes out as three blocks. -/
theorem st54j_se_write_chunking_witness :
    (st54j_se_write openDev okEnv (fun a => a % 256) 600).ret = 600 ∧
    (busWrites (st54j_se_write openDev okEnv (fun a => a % 256) 600).trace).length = 3 :=
  ⟨(st54j_se_write_chunking openDev okEnv (fun a => a % 256) 600 (by decide)
      (fun _ _ => rfl) (fun _ _ => Int.le_refl 0)).1,
   (st54j_se_write_chunking openDev okEnv (fun a => a % 256) 600 (by decide)
      (fun _ _ => rfl) (fun _ _ => Int.le_refl 0)).2.1⟩

/-! ## Chunked read -/

/-- C2: a read of `L` bytes (`L` at most `INT_MAX`) in which every bus read and
every copy succeeds returns `L` and issues exactly `ceil(L/258)` bus reads, of
258 bytes each except the last, which has `L mod 258` bytes (258 when 258
divides `L`); received block `i` is copied to the caller buffer at offset
`i * 258`, so the first `L` bytes of the caller buffer are the received blocks
concatenated in call order; the memory behind them is untouched. -/
theorem st54j_se_read_chunking (dev : st54j_se_dev) (env : Env) (umem : Nat → Byte)
    (L : Nat) (hL : L ≤ INT_MAX)
    (hbus : ∀ i, i < blockCount ST54_MAX_BUF L →
      0 ≤ env.spi_read i (blockSize ST54_MAX_BUF L i))
    (hcopy : ∀ i, i < blockCount ST54_MAX_BUF L →
      env.copy_to_user i (i * ST54_MAX_BUF) (blockSize ST54_MAX_BUF L i) = 0) :
    (st54j_se_read dev env umem L).ret = L ∧
    (busReads (st54j_se_read dev env umem L).trace).length = (L + 257) / 258 ∧
    (∀ i, i + 1 < (L + 257) / 258 →
      (busReads (st54j_se_read dev env umem L).trace)[i]? = some 258) ∧
    (0 < L →
      (busReads (st54j_se_read dev env umem L).trace)[(L + 257) / 258 - 1]? =
        some (if L % 258 = 0 then 258 else L % 258)) ∧
    copiesOut (st54j_se_read dev env umem L).trace =
      (List.range ((L + 257) / 258)).map
        (fun i => (i * 258, bytesAt (env.spi_rx i) 0 (min ((i + 1) * 258) L - i * 258))) ∧
    bytesAt (st54j_se_read dev env umem L).umem 0 L =
      ((List.range ((L + 257) / 258)).map
        (fun i => bytesAt (env.spi_rx i) 0 (min ((i + 1) * 258) L - i * 258))).flatten ∧
    (∀ x, L ≤ x → (st54j_se_read dev env umem L).umem x = umem x) := by
  have hn : blockCount ST54_MAX_BUF L = (L + 257) / 258 := rfl
  have key := read_chunked_ok ST54_MAX_BUF (by decide) dev env umem L hL hbus hcopy
  have hge : L ≤ (L + 257) / 258 * 258 := by omega
  have hmin : min ((L + 257) / 258 * 258) L = L := by omega
  have hr : busReads (st54j_se_read dev env umem L).trace =
      (List.range ((L + 257) / 258)).map (fun i => min ((i + 1) * 258) L - i * 258) := by
    unfold st54j_se_read
    rw [key]
    simp only [busReads_append, busReads_readBlocks, hn]
    simp [busReads, ST54_MAX_BUF, blockSize]
  have hco : copiesOut (st54j_se_read dev env umem L).trace =
      (List.range ((L + 257) / 258)).map
        (fun i => (i * 258, bytesAt (env.spi_rx i) 0 (min ((i + 1) * 258) L - i * 258))) := by
    unfold st54j_se_read
    rw [key]
    simp only [copiesOut_append, copiesOut_readBlocks, hn]
    simp [copiesOut, ST54_MAX_BUF, blockSize, rxBlock]
  have hum : (st54j_se_read dev env umem L).umem =
      readMem 258 env umem L ((L + 257) / 258) := by
    unfold st54j_se_read
    rw [key]
    rfl
  refine ⟨?_, ?_, ?_, ?_, hco, ?_, ?_⟩
  · unfold st54j_se_read; rw [key]
  · rw [hr]; simp
  · intro i hi
    rw [hr, List.getElem?_map, List.getElem?_range (by omega)]
    simp only [Option.map_some', Option.some.injEq]
    omega
  · intro hpos
    rw [hr, List.getElem?_map, List.getElem?_range (by omega)]
    simp only [Option.map_some', Option.some.injEq]
    split <;> omega
  · have h := readMem_below 258 env umem L ((L + 257) / 258)
    rw [hmin] at h
    rw [hum, h]
    rfl
  · intro x hx
    rw [hum]
    exact readMem_above 258 env umem L ((L + 257) / 258) x (by omega)

/-- Witness of C2: a 600-byte read through `okEnv` comes in as three blocks. -/
theorem st54j_se_read_chunking_witness :
    (st54j_se_read openDev okEnv (fun _ => 0) 600).ret = 600 ∧
    (busReads (st54j_se_read openDev okEnv (fun _ => 0) 600).trace).length = 3 :=
  ⟨(st54j_se_read_chunking openDev okEnv (fun _ => 0) 600 (by decide)
      (fun _ _ => Int.le_refl 0) (fun _ _ => rfl)).1,
   (st54j_se_read_chunking openDev okEnv (fun _ => 0) 600 (by decide)
      (fun _ _ => Int.le_refl 0) (fun _ _ => rfl)).2.1⟩

/-! ## Bus failure -/

theorem busReads_writeBlocks (B : Nat) (umem : Nat → Byte) (L m : Nat) :
    busReads (writeBlocks B umem L m) = [] := by
  induction m with
  | zero => rfl
  | succ m ih => simp [writeBlocks, busReads_append, ih, writeBlock, busReads]

theorem busWrites_readBlocks (B : Nat) (env : Env) (L m : Nat) :
    busWrites (readBlocks B env L m) = [] := by
  induction m with
  | zero => rfl
  | succ m ih => simp [readBlocks, busWrites_append, ih, readBlock, busWrites]

/-- C3: when the bus first fails (returns a negative code) on block `k` of a
transfer of `L` bytes, `k` between 1 and the number of blocks, and the copies
before it succeed, the operation returns that negative code, exactly `k` bus
calls are made (nothing after block `k`, block `k` once), and what was
exchanged before are the first `k - 1` blocks of the request: for a write the
bus calls carry blocks `1..k` of the caller buffer in order, for a read the
first `k - 1` received blocks are in the caller buffer and nothing else of it
has changed. -/
theorem bus_failure_aborts_transfer (dev : st54j_se_dev) (env : Env) (umem : Nat → Byte)
    (L k : Nat) (hL : L ≤ INT_MAX) (hk : 1 ≤ k) (hkn : k ≤ (L + 257) / 258) :
    ((∀ i, i < k → env.copy_from_user i (i * 258) (min ((i + 1) * 258) L - i * 258) = 0) →
      (∀ i, i + 1 < k →
        0 ≤ env.spi_write i (bytesAt umem (i * 258) (min ((i + 1) * 258) L - i * 258))) →
      env.spi_write (k - 1)
        (bytesAt umem ((k - 1) * 258) (min ((k - 1 + 1) * 258) L - (k - 1) * 258)) < 0 →
      (st54j_se_write dev env umem L).ret =
          env.spi_write (k - 1)
            (bytesAt umem ((k - 1) * 258) (min ((k - 1 + 1) * 258) L - (k - 1) * 258)) ∧
        (st54j_se_write dev env umem L).ret < 0 ∧
        busCalls (st54j_se_write dev env umem L).trace = k ∧
        busWrites (st54j_se_write dev env umem L).trace =
          (List.range k).map
            (fun i => bytesAt umem (i * 258) (min ((i + 1) * 258) L - i * 258))) ∧
    ((∀ i, i + 1 < k → 0 ≤ env.spi_read i (min ((i + 1) * 258) L - i * 258)) →
      (∀ i, i + 1 < k →
        env.copy_to_user i (i * 258) (min ((i + 1) * 258) L - i * 258) = 0) →
      env.spi_read (k - 1) (min ((k - 1 + 1) * 258) L - (k - 1) * 258) < 0 →
      (st54j_se_read dev env umem L).ret =
          env.spi_read (k - 1) (min ((k - 1 + 1) * 258) L - (k - 1) * 258) ∧
        (st54j_se_read dev env umem L).ret < 0 ∧
        busCalls (st54j_se_read dev env umem L).trace = k ∧
        busReads (st54j_se_read dev env umem L).trace =
          (List.range k).map (fun i => min ((i + 1) * 258) L - i * 258) ∧
        copiesOut (st54j_se_read dev env umem L).trace =
          (List.range (k - 1)).map
            (fun i => (i * 258, bytesAt (env.spi_rx i) 0 (min ((i + 1) * 258) L - i * 258))) ∧
        bytesAt (st54j_se_read dev env umem L).umem 0 ((k - 1) * 258) =
          ((List.range (k - 1)).map
            (fun i => bytesAt (env.spi_rx i) 0 (min ((i + 1) * 258) L - i * 258))).flatten ∧
        (∀ x, (k - 1) * 258 ≤ x → (st54j_se_read dev env umem L).umem x = umem x)) := by
  have hf : k - 1 < blockCount ST54_MAX_BUF L := by
    have : blockCount ST54_MAX_BUF L = (L + 257) / 258 := rfl
    omega
  have hk1 : k - 1 + 1 = k := by omega
  have hlt : (k - 1) * 258 < L := by omega
  have hmin : min ((k - 1) * 258) L = (k - 1) * 258 := by omega
  constructor
  · intro hc hs hfail
    have key := write_chunked_bus_fail ST54_MAX_BUF (by decide) dev env umem L (k - 1) hL hf
      (fun j hj => hc j (by omega)) (fun j hj => hs j (by omega)) hfail
    have hret : (st54j_se_write dev env umem L).ret =
        env.spi_write (k - 1)
          (bytesAt umem ((k - 1) * 258) (min ((k - 1 + 1) * 258) L - (k - 1) * 258)) := by
      unfold st54j_se_write; rw [key]; rfl
    have hw : busWrites (st54j_se_write dev env umem L).trace =
        (List.range k).map
          (fun i => bytesAt umem (i * 258) (min ((i + 1) * 258) L - i * 258)) := by
      unfold st54j_se_write
      rw [key]
      simp only [busWrites_append, busWrites_writeBlocks, hk1]
      simp [busWrites, ST54_MAX_BUF, blockSize]
    have hrd : busReads (st54j_se_write dev env umem L).trace = [] := by
      unfold st54j_se_write
      rw [key]
      simp only [busReads_append, busReads_writeBlocks]
      simp [busReads]
    refine ⟨hret, ?_, ?_, hw⟩
    · rw [hret]; exact hfail
    · simp [busCalls, hw, hrd]
  · intro hs hc hfail
    have key := read_chunked_bus_fail ST54_MAX_BUF (by decide) dev env umem L (k - 1) hL hf
      (fun j hj => hs j (by omega)) (fun j hj => hc j (by omega)) hfail
    have hret : (st54j_se_read dev env umem L).ret =
        env.spi_read (k - 1) (min ((k - 1 + 1) * 258) L - (k - 1) * 258) := by
      unfold st54j_se_read; rw [key]; rfl
    have hr : busReads (st54j_se_read dev env umem L).trace =
        (List.range k).map (fun i => min ((i + 1) * 258) L - i * 258) := by
      unfold st54j_se_read
      rw [key]
      simp only [busReads_append, busReads_readBlocks]
      conv_rhs => rw [← hk1, List.range_succ]
      simp [busReads, ST54_MAX_BUF, blockSize]
    have hwr : busWrites (st54j_se_read dev env umem L).trace = [] := by
      unfold st54j_se_read
      rw [key]
      simp only [busWrites_append, busWrites_readBlocks]
      simp [busWrites]
    have hco : copiesOut (st54j_se_read dev env umem L).trace =
        (List.range (k - 1)).map
          (fun i => (i * 258, bytesAt (env.spi_rx i) 0 (min ((i + 1) * 258) L - i * 258))) := by
      unfold st54j_se_read
      rw [key]
      simp only [copiesOut_append, copiesOut_readBlocks]
      simp [copiesOut, ST54_MAX_BUF, blockSize, rxBlock]
    have hum : (st54j_se_read dev env umem L).umem = readMem 258 env umem L (k - 1) := by
      unfold st54j_se_read
      rw [key]
      rfl
    refine ⟨hret, ?_, ?_, hr, hco, ?_, ?_⟩
    · rw [hret]; exact hfail
    · simp [busCalls, hr, hwr]
    · have h := readMem_below 258 env umem L (k - 1)
      rw [hmin] at h
      rw [hum, h]
      rfl
    · intro x hx
      rw [hum]
      exact readMem_above 258 env umem L (k - 1) x (by omega)

/-- Witness of C3: the bus refuses the second of three blocks with `-5`. -/
theorem bus_failure_aborts_transfer_witness :
    ((st54j_se_write openDev busFailEnv (fun a => a % 256) 600).ret = -5 ∧
      busCalls (st54j_se_write openDev busFailEnv (fun a => a % 256) 600).trace = 2) ∧
    ((st54j_se_read openDev busFailEnv (fun _ => 0) 600).ret = -5 ∧
      busCalls (st54j_se_read openDev busFailEnv (fun _ => 0) 600).trace = 2) :=
  by
  have hw := (bus_failure_aborts_transfer openDev busFailEnv (fun a => a % 256) 600 2
    (by decide) (by decide) (by decide)).1 (fun _ _ => rfl)
    (fun i hi => by
      have h0 : i = 0 := by omega
      subst h0; decide)
    (by decide)
  have hr := (bus_failure_aborts_transfer openDev busFailEnv (fun _ => 0) 600 2
    (by decide) (by decide) (by decide)).2
    (fun i hi => by
      have h0 : i = 0 := by omega
      subst h0; decide)
    (fun _ _ => rfl) (by decide)
  exact ⟨⟨hw.1, hw.2.2.1⟩, ⟨hr.1, hr.2.2.1⟩⟩

/-! ## Copy failure -/

/-- C4: evaluation at the failing input. A one-byte write whose
`copy_from_user` leaves the byte uncopied returns `1`, the requested length,
not `-EFAULT`, although nothing reached the bus; a one-byte read whose
`copy_to_user` leaves the byte uncopied returns `1` as well, although the
caller buffer is unchanged. -/
theorem copy_fault_returns_uncopied_count :
    (st54j_se_write openDev copyFailEnv (fun a => a % 256) 1).ret = 1 ∧
    (st54j_se_write openDev copyFailEnv (fun a => a % 256) 1).ret ≠ -EFAULT ∧
    (st54j_se_write openDev copyFailEnv (fun a => a % 256) 1).trace =
      [Event.mutex_lock, Event.copy_from_user 0 1, Event.mutex_unlock] ∧
    (st54j_se_read openDev copyFailEnv (fun _ => 7) 1).ret = 1 ∧
    (st54j_se_read openDev copyFailEnv (fun _ => 7) 1).ret ≠ -EFAULT ∧
    (st54j_se_read openDev copyFailEnv (fun _ => 7) 1).trace =
      [Event.mutex_lock, Event.spi_read 1, Event.copy_to_user 0 [0], Event.mutex_unlock] ∧
    (st54j_se_read openDev copyFailEnv (fun _ => 7) 1).umem 0 = 7 := by
  have hw := write_chunked_copy_fail ST54_MAX_BUF (by decide) openDev copyFailEnv
    (fun a => a % 256) 1 0 (by decide) (by decide) (fun j hj => absurd hj (Nat.not_lt_zero j))
    (fun j hj => absurd hj (Nat.not_lt_zero j)) (by decide)
  have hr := read_chunked_copy_fail ST54_MAX_BUF (by decide) openDev copyFailEnv
    (fun _ => 7) 1 0 (by decide) (by decide) (fun _ _ => Int.le_refl 0)
    (fun j hj => absurd hj (Nat.not_lt_zero j)) (by decide)
  have hwret : (st54j_se_write openDev copyFailEnv (fun a => a % 256) 1).ret = 1 := by
    unfold st54j_se_write; rw [hw]; rfl
  have hrret : (st54j_se_read openDev copyFailEnv (fun _ => 7) 1).ret = 1 := by
    unfold st54j_se_read; rw [hr.1]; rfl
  refine ⟨hwret, ?_, ?_, hrret, ?_, ?_, ?_⟩
  · rw [hwret]; decide
  · unfold st54j_se_write; rw [hw]; rfl
  · rw [hrret]; decide
  · unfold st54j_se_read; rw [hr.2]; rfl
  · simp [st54j_se_read, st54j_se_read_chunked, INT_MAX, ST54_MAX_BUF,
      read_loop_step, copyFailEnv, okEnv, store]

/-! ## Open and release -/

theorem runCalls_snoc (d : st54j_se_dev) (calls : List FileCall) (c : FileCall) :
    runCalls d (calls ++ [c]) = (applyCall (runCalls d calls) c).2 := by
  simp [runCalls, List.foldl_append]

/-- C5: an open on an open session returns `-EBUSY` and leaves the session as
it is; an open on a closed session returns `0` and makes it open; an open right
after a release returns `0`. The same holds after every sequence of open and
release calls: when the sequence ends in an open the session is open and a
further open is refused without changing it, when it ends in a release the
session is closed and a further open succeeds. -/
theorem st54j_se_open_exclusive (dev : st54j_se_dev) (calls : List FileCall) :
    st54j_se_open { dev with device_open := true } =
      (-EBUSY, { dev with device_open := true }) ∧
    st54j_se_open { dev with device_open := false } =
      (0, { dev with device_open := true }) ∧
    st54j_se_open (st54j_se_release dev).2 = (0, { dev with device_open := true }) ∧
    (runCalls dev (calls ++ [FileCall.do_open])).device_open = true ∧
    st54j_se_open (runCalls dev (calls ++ [FileCall.do_open])) =
      (-EBUSY, runCalls dev (calls ++ [FileCall.do_open])) ∧
    (runCalls dev (calls ++ [FileCall.do_release])).device_open = false ∧
    (st54j_se_open (runCalls dev (calls ++ [FileCall.do_release]))).1 = 0 ∧
    (st54j_se_open (runCalls dev (calls ++ [FileCall.do_release]))).2.device_open = true := by
  have hopen : (runCalls dev (calls ++ [FileCall.do_open])).device_open = true := by
    rw [runCalls_snoc]
    simp only [applyCall, st54j_se_open]
    split <;> simp_all
  have hrel : (runCalls dev (calls ++ [FileCall.do_release])).device_open = false := by
    rw [runCalls_snoc]
    rfl
  refine ⟨rfl, rfl, rfl, hopen, ?_, hrel, ?_, ?_⟩
  · simp [st54j_se_open, hopen]
  · simp [st54j_se_open, hrel]
  · simp [st54j_se_open, hrel]

/-! ## Degenerate and rejected lengths -/

/-- C6: in every session state and under every behaviour of the copies and of
the bus, a write and a read of length `0` return `0`; they take and release the
mutex and do nothing else: no bus call, no copy, user memory untouched. -/
theorem zero_length_transfer_is_noop (dev : st54j_se_dev) (env : Env) (umem : Nat → Byte) :
    (st54j_se_write dev env umem 0).ret = 0 ∧
    (st54j_se_write dev env umem 0).trace = [Event.mutex_lock, Event.mutex_unlock] ∧
    busCalls (st54j_se_write dev env umem 0).trace = 0 ∧
    copiesIn (st54j_se_write dev env umem 0).trace = [] ∧
    (st54j_se_read dev env umem 0).ret = 0 ∧
    (st54j_se_read dev env umem 0).trace = [Event.mutex_lock, Event.mutex_unlock] ∧
    busCalls (st54j_se_read dev env umem 0).trace = 0 ∧
    copiesOut (st54j_se_read dev env umem 0).trace = [] ∧
    (st54j_se_read dev env umem 0).umem = umem := by
  have hw : st54j_se_write dev env umem 0 =
      { ret := 0, dev := mutex_unlock (mutex_lock dev),
        trace := [Event.mutex_lock, Event.mutex_unlock] } := by
    simp [st54j_se_write, st54j_se_write_chunked, INT_MAX, write_loop_done, int_of_ulong]
  have hr : st54j_se_read dev env umem 0 =
      { ret := 0, dev := mutex_unlock (mutex_lock dev), umem := umem,
        trace := [Event.mutex_lock, Event.mutex_unlock] } := by
    simp [st54j_se_read, st54j_se_read_chunked, INT_MAX, read_loop_done, ssize_t_of_ulong]
  rw [hw, hr]
  exact ⟨rfl, rfl, rfl, rfl, rfl, rfl, rfl, rfl, rfl⟩

/-- C7: `INT_MAX` is `2^31 - 1`; a write or read of more than `INT_MAX` bytes
returns `-EINVAL` with an empty trace (no lock, no copy, no bus call) and the
session and the user memory unchanged; for every length up to and including
`INT_MAX` the check is passed: the first thing the operation does is take the
mutex. So the trace is empty exactly when the length exceeds `INT_MAX`. -/
theorem length_check (dev : st54j_se_dev) (env : Env) (umem : Nat → Byte) (len : Nat) :
    INT_MAX = 2 ^ 31 - 1 ∧
    (INT_MAX < len →
      st54j_se_write dev env umem len = { ret := -EINVAL, dev := dev, trace := [] } ∧
      (st54j_se_read dev env umem len).ret = -EINVAL ∧
      (st54j_se_read dev env umem len).dev = dev ∧
      (st54j_se_read dev env umem len).umem = umem ∧
      (st54j_se_read dev env umem len).trace = []) ∧
    (len ≤ INT_MAX →
      (st54j_se_write dev env umem len).trace.head? = some Event.mutex_lock ∧
      (st54j_se_read dev env umem len).trace.head? = some Event.mutex_lock) ∧
    ((st54j_se_write dev env umem len).trace = [] ↔ INT_MAX < len) ∧
    ((st54j_se_read dev env umem len).trace = [] ↔ INT_MAX < len) := by
  refine ⟨by decide, ?_, ?_, ?_, ?_⟩
  · intro h
    simp [st54j_se_write, st54j_se_write_chunked, st54j_se_read, st54j_se_read_chunked, h]
  · intro h
    have h' : ¬ len > INT_MAX := by omega
    simp [st54j_se_write, st54j_se_write_chunked, st54j_se_read, st54j_se_read_chunked, h']
  · by_cases h : len > INT_MAX
    · simp [st54j_se_write, st54j_se_write_chunked, h]
    · simp [st54j_se_write, st54j_se_write_chunked, h]
  · by_cases h : len > INT_MAX
    · simp [st54j_se_read, st54j_se_read_chunked, h]
    · simp [st54j_se_read, st54j_se_read_chunked, h]

/-- Witness of C7: `INT_MAX + 1` bytes are refused, `INT_MAX` bytes pass. -/
theorem length_check_witness :
    st54j_se_write openDev okEnv (fun _ => 0) 2147483648 =
      { ret := -EINVAL, dev := openDev, trace := [] } ∧
    (st54j_se_write openDev okEnv (fun _ => 0) 2147483647).trace.head? =
      some Event.mutex_lock :=
  ⟨((length_check openDev okEnv (fun _ => 0) 2147483648).2.1 (by decide)).1,
   ((length_check openDev okEnv (fun _ => 0) 2147483647).2.2.1 (by decide)).1⟩

/-! ## Reset -/

/-- C8: on a session whose reset descriptor is valid, the reset command,
whatever its argument, returns `0`, releases the mutex it took, and does
exactly this: take the mutex, drive the line to `0`, sleep for 5000 to 5500
microseconds, drive the line to `1`, release the mutex. The line sees the three
steps in that order and nothing else, and there is no bus call. -/
theorem reset_pulse_order (dev : st54j_se_dev) (arg : Nat)
    (hline : IS_ERR dev.gpiod_se_reset = false) :
    (st54j_se_ioctl dev ST54J_SE_RESET arg).ret = 0 ∧
    (st54j_se_ioctl dev ST54J_SE_RESET arg).dev = { dev with mutex_locked := false } ∧
    (st54j_se_ioctl dev ST54J_SE_RESET arg).trace =
      [Event.mutex_lock,
       Event.gpiod_set_value dev.gpiod_se_reset 0,
       Event.usleep_range 5000 5500,
       Event.gpiod_set_value dev.gpiod_se_reset 1,
       Event.mutex_unlock] ∧
    lineOps (st54j_se_ioctl dev ST54J_SE_RESET arg).trace =
      [Event.gpiod_set_value dev.gpiod_se_reset 0,
       Event.usleep_range 5000 5500,
       Event.gpiod_set_value dev.gpiod_se_reset 1] ∧
    busCalls (st54j_se_ioctl dev ST54J_SE_RESET arg).trace = 0 := by
  have h : st54j_se_ioctl dev ST54J_SE_RESET arg =
      { ret := 0, dev := { dev with mutex_locked := false },
        trace := [Event.mutex_lock,
                  Event.gpiod_set_value dev.gpiod_se_reset 0,
                  Event.usleep_range 5000 5500,
                  Event.gpiod_set_value dev.gpiod_se_reset 1,
                  Event.mutex_unlock] } := by
    simp [st54j_se_ioctl, mutex_lock, mutex_unlock, hline]
  rw [h]
  exact ⟨rfl, rfl, rfl, rfl, rfl⟩

/-- Witness of C8: the pulse on the open sample session, argument `77`. -/
theorem reset_pulse_order_witness :
    IS_ERR openDev.gpiod_se_reset = false ∧
    lineOps (st54j_se_ioctl openDev ST54J_SE_RESET 77).trace =
      [Event.gpiod_set_value openDev.gpiod_se_reset 0,
       Event.usleep_range 5000 5500,
       Event.gpiod_set_value openDev.gpiod_se_reset 1] :=
  ⟨rfl, (reset_pulse_order openDev 77 rfl).2.2.2.1⟩

/-- C9: on a session whose reset descriptor is an error pointer, the reset
command, whatever its argument, returns `-ENODEV`; it takes and releases the
mutex and does nothing else: no line operation, no wait, no bus call. -/
theorem reset_without_line (dev : st54j_se_dev) (arg : Nat)
    (hline : IS_ERR dev.gpiod_se_reset = true) :
    (st54j_se_ioctl dev ST54J_SE_RESET arg).ret = -ENODEV ∧
    (st54j_se_ioctl dev ST54J_SE_RESET arg).dev = { dev with mutex_locked := false } ∧
    (st54j_se_ioctl dev ST54J_SE_RESET arg).trace = [Event.mutex_lock, Event.mutex_unlock] ∧
    lineOps (st54j_se_ioctl dev ST54J_SE_RESET arg).trace = [] ∧
    busCalls (st54j_se_ioctl dev ST54J_SE_RESET arg).trace = 0 := by
  have h : st54j_se_ioctl dev ST54J_SE_RESET arg =
      { ret := -ENODEV, dev := { dev with mutex_locked := false },
        trace := [Event.mutex_lock, Event.mutex_unlock] } := by
    simp [st54j_se_ioctl, mutex_lock, mutex_unlock, hline]
  rw [h]
  exact ⟨rfl, rfl, rfl, rfl, rfl⟩

/-- Witness of C9: the reset descriptor is `ERR_PTR(-ENOENT)`. -/
theorem reset_without_line_witness :
    IS_ERR noLineDev.gpiod_se_reset = true ∧
    (st54j_se_ioctl noLineDev ST54J_SE_RESET 0).ret = -ENODEV ∧
    lineOps (st54j_se_ioctl noLineDev ST54J_SE_RESET 0).trace = [] :=
  ⟨rfl, (reset_without_line noLineDev 0 rfl).1, (reset_without_line noLineDev 0 rfl).2.2.2.1⟩

/-! ## Requests and the open flag -/

/-- C10, refuted as stated: on a closed session a one-byte write returns `1`
and sends the byte, a one-byte read returns `1` and reads the bus, and the
reset command returns `0` and pulses the line. -/
theorem closed_session_requests_are_served :
    closedDev.device_open = false ∧
    (st54j_se_write closedDev okEnv (fun a => a + 1) 1).ret = 1 ∧
    busWrites (st54j_se_write closedDev okEnv (fun a => a + 1) 1).trace = [[1]] ∧
    (st54j_se_read closedDev okEnv (fun _ => 0) 1).ret = 1 ∧
    busReads (st54j_se_read closedDev okEnv (fun _ => 0) 1).trace = [1] ∧
    (st54j_se_ioctl closedDev ST54J_SE_RESET 0).ret = 0 ∧
    lineOps (st54j_se_ioctl closedDev ST54J_SE_RESET 0).trace =
      [Event.gpiod_set_value closedDev.gpiod_se_reset 0,
       Event.usleep_range 5000 5500,
       Event.gpiod_set_value closedDev.gpiod_se_reset 1] := by
  have hw := write_chunked_ok ST54_MAX_BUF (by decide) closedDev okEnv (fun a => a + 1) 1
    (by decide) (fun _ _ => rfl) (fun _ _ => Int.le_refl 0)
  have hr := read_chunked_ok ST54_MAX_BUF (by decide) closedDev okEnv (fun _ => 0) 1
    (by decide) (fun _ _ => Int.le_refl 0) (fun _ _ => rfl)
  refine ⟨rfl, ?_, ?_, ?_, ?_, rfl, rfl⟩
  · unfold st54j_se_write; rw [hw]; rfl
  · unfold st54j_se_write; rw [hw]; rfl
  · unfold st54j_se_read; rw [hr]; rfl
  · unfold st54j_se_read; rw [hr]; rfl

/-- C10, amended: write, read and ioctl never look at `device_open`. Whatever
the flag is set to, they return the same value, leave the same trace and the
same user memory, and hand the flag back as they found it. -/
theorem requests_ignore_device_open (dev : st54j_se_dev) (env : Env) (umem : Nat → Byte)
    (len cmd arg : Nat) (b : Bool) :
    (st54j_se_write { dev with device_open := b } env umem len).ret =
      (st54j_se_write dev env umem len).ret ∧
    (st54j_se_write { dev with device_open := b } env umem len).trace =
      (st54j_se_write dev env umem len).trace ∧
    (st54j_se_write { dev with device_open := b } env umem len).dev.device_open = b ∧
    (st54j_se_read { dev with device_open := b } env umem len).ret =
      (st54j_se_read dev env umem len).ret ∧
    (st54j_se_read { dev with device_open := b } env umem len).trace =
      (st54j_se_read dev env umem len).trace ∧
    (st54j_se_read { dev with device_open := b } env umem len).umem =
      (st54j_se_read dev env umem len).umem ∧
    (st54j_se_read { dev with device_open := b } env umem len).dev.device_open = b ∧
    (st54j_se_ioctl { dev with device_open := b } cmd arg).ret =
      (st54j_se_ioctl dev cmd arg).ret ∧
    (st54j_se_ioctl { dev with device_open := b } cmd arg).trace =
      (st54j_se_ioctl dev cmd arg).trace ∧
    (st54j_se_ioctl { dev with device_open := b } cmd arg).dev.device_open = b := by
  refine ⟨?_, ?_, ?_, ?_, ?_, ?_, ?_, ?_, ?_, ?_⟩
  · simp only [st54j_se_write, st54j_se_write_chunked]; split <;> rfl
  · simp only [st54j_se_write, st54j_se_write_chunked]; split <;> rfl
  · simp only [st54j_se_write, st54j_se_write_chunked]; split <;> rfl
  · simp only [st54j_se_read, st54j_se_read_chunked]; split <;> rfl
  · simp only [st54j_se_read, st54j_se_read_chunked]; split <;> rfl
  · simp only [st54j_se_read, st54j_se_read_chunked]; split <;> rfl
  · simp only [st54j_se_read, st54j_se_read_chunked]; split <;> rfl
  · simp only [st54j_se_ioctl, mutex_lock, mutex_unlock]
    split
    · split <;> rfl
    · rfl
  · simp only [st54j_se_ioctl, mutex_lock, mutex_unlock]
    split
    · split <;> rfl
    · rfl
  · simp only [st54j_se_ioctl, mutex_lock, mutex_unlock]
    split
    · split <;> rfl
    · rfl

/-! ## Session setup -/

/-- A successful setup hands out the device with the `device_open` that the
allocation contained: the flag is never assigned. -/
theorem probe_keeps_allocated_device_open (penv : ProbeEnv) (g d : st54j_se_dev)
    (hg : penv.kmalloc_ese_dev = some g) (hd : (st54j_se_probe penv).session = some d) :
    d.device_open = g.device_open := by
  unfold st54j_se_probe at hd
  rw [hg] at hd
  by_cases h1 : penv.np <;> by_cases h2 : penv.kmalloc_spi_param <;>
    by_cases h3 : IS_ERR penv.gpiod_get <;> by_cases h4 : penv.misc_register = 0 <;>
    simp [h1, h2, h3, h4] at hd
  rw [← hd]

/-- C11: evaluation at the failing input. `st54j_se_probe` allocates the device
with `kmalloc` and never assigns `device_open`; when the allocated memory has
the flag set, setup still returns `0`, the session starts with `device_open`
true, and the first open on it is refused with `-EBUSY`. -/
theorem probe_leaves_device_open_unset :
    (st54j_se_probe staleProbeEnv).ret = 0 ∧
    (st54j_se_probe staleProbeEnv).session = some openDev ∧
    openDev.device_open = true ∧
    st54j_se_open openDev = (-EBUSY, openDev) := by
  refine ⟨rfl, rfl, rfl, rfl⟩

/-! ## Release -/

/-- C12: in every session state release returns `0` and leaves `device_open`
false; a second release gives the same result and state as the first; release
changes nothing but `device_open` (the reset descriptor and the mutex are as
before) and makes no bus, line or lock call: its trace is empty. -/
theorem st54j_se_release_idempotent (dev : st54j_se_dev) :
    (st54j_se_release dev).1 = 0 ∧
    (st54j_se_release dev).2.device_open = false ∧
    st54j_se_release (st54j_se_release dev).2 = st54j_se_release dev ∧
    (st54j_se_release dev).2 = { dev with device_open := false } ∧
    (st54j_se_release dev).2.gpiod_se_reset = dev.gpiod_se_reset ∧
    (st54j_se_release dev).2.mutex_locked = dev.mutex_locked ∧
    (serve dev Request.do_release).ret = 0 ∧
    (serve dev Request.do_release).dev = (st54j_se_release dev).2 ∧
    (serve dev Request.do_release).trace = [] ∧
    busCalls (serve dev Request.do_release).trace = 0 ∧
    lineOps (serve dev Request.do_release).trace = [] ∧
    lockCount (serve dev Request.do_release).trace = 0 := by
  refine ⟨rfl, rfl, rfl, rfl, rfl, rfl, rfl, rfl, rfl, rfl, rfl, rfl⟩

/-! ## The reset line of a session -/

theorem serve_gpiod_se_reset (d : st54j_se_dev) (r : Request) :
    (serve d r).dev.gpiod_se_reset = d.gpiod_se_reset := by
  cases r with
  | do_open =>
    simp only [serve, st54j_se_open]
    split <;> rfl
  | do_release => rfl
  | do_write env umem len =>
    simp only [serve, st54j_se_write, st54j_se_write_chunked]
    split <;> rfl
  | do_read env umem len =>
    simp only [serve, st54j_se_read, st54j_se_read_chunked]
    split <;> rfl
  | do_ioctl cmd arg =>
    simp only [serve, st54j_se_ioctl]
    split
    · split <;> rfl
    · rfl

theorem runRequests_gpiod_se_reset (reqs : List Request) :
    ∀ d : st54j_se_dev, (runRequests d reqs).gpiod_se_reset = d.gpiod_se_reset := by
  induction reqs with
  | nil => intro d; rfl
  | cons r t ih =>
    intro d
    have h : runRequests d (r :: t) = runRequests (serve d r).dev t := rfl
    rw [h, ih, serve_gpiod_se_reset]

theorem probe_session_line (penv : ProbeEnv) (d : st54j_se_dev)
    (hd : (st54j_se_probe penv).session = some d) :
    IS_ERR d.gpiod_se_reset = false := by
  unfold st54j_se_probe at hd
  cases hk : penv.kmalloc_ese_dev with
  | none =>
    rw [hk] at hd
    by_cases h1 : penv.np <;> simp [h1] at hd
  | some g =>
    rw [hk] at hd
    by_cases h1 : penv.np <;> by_cases h2 : penv.kmalloc_spi_param <;>
      by_cases h3 : IS_ERR penv.gpiod_get <;> by_cases h4 : penv.misc_register = 0 <;>
      simp [h1, h2, h3, h4] at hd
    rw [← hd]
    simpa using h3

theorem probe_ok_session (penv : ProbeEnv) (h : (st54j_se_probe penv).ret = 0) :
    ∃ d, (st54j_se_probe penv).session = some d := by
  unfold st54j_se_probe at h ⊢
  cases hk : penv.kmalloc_ese_dev with
  | none =>
    rw [hk] at h
    by_cases h1 : penv.np <;> simp [h1, EINVAL, ENOMEM] at h
  | some g =>
    rw [hk] at h
    by_cases h1 : penv.np <;> by_cases h2 : penv.kmalloc_spi_param <;>
      by_cases h3 : IS_ERR penv.gpiod_get <;> by_cases h4 : penv.misc_register = 0 <;>
      simp [h1, h2, h3, h4, EINVAL, ENOMEM, ENODEV] at h
    simp [h1, h2, h3, h4]

/-- C13: when `gpiod_get` fails, setup registers nothing: no `misc_register`
call is made, no session exists, and the return value is not `0`; when the
steps before it succeeded the return value is `-ENODEV`. A setup that returns
`0` does hand out a session, and in every state reached from it by any sequence
of open, release, write, read and ioctl requests the reset descriptor is valid:
the reset command returns `0` there, never `-ENODEV`. -/
theorem no_partial_session (penv : ProbeEnv) (reqs : List Request) (arg : Nat) :
    (IS_ERR penv.gpiod_get = true →
      (st54j_se_probe penv).session = none ∧
      ProbeEvent.misc_register ∉ (st54j_se_probe penv).trace ∧
      (st54j_se_probe penv).ret ≠ 0) ∧
    (IS_ERR penv.gpiod_get = true → penv.np = true → penv.kmalloc_ese_dev.isSome = true →
      penv.kmalloc_spi_param = true → (st54j_se_probe penv).ret = -ENODEV) ∧
    ((st54j_se_probe penv).ret = 0 → ∃ d, (st54j_se_probe penv).session = some d) ∧
    (∀ d, (st54j_se_probe penv).session = some d →
      IS_ERR (runRequests d reqs).gpiod_se_reset = false ∧
      (st54j_se_ioctl (runRequests d reqs) ST54J_SE_RESET arg).ret = 0 ∧
      (st54j_se_ioctl (runRequests d reqs) ST54J_SE_RESET arg).ret ≠ -ENODEV) := by
  refine ⟨?_, ?_, probe_ok_session penv, ?_⟩
  · intro herr
    unfold st54j_se_probe
    cases hk : penv.kmalloc_ese_dev with
    | none =>
      by_cases h1 : penv.np <;> simp [h1, EINVAL, ENOMEM]
    | some g =>
      by_cases h1 : penv.np <;> by_cases h2 : penv.kmalloc_spi_param <;>
        simp [h1, h2, herr, EINVAL, ENOMEM, ENODEV]
  · intro herr hnp hk hsp
    unfold st54j_se_probe
    cases hk' : penv.kmalloc_ese_dev with
    | none => rw [hk'] at hk; simp at hk
    | some g => simp [hnp, hsp, herr]
  · intro d hd
    have hline : IS_ERR (runRequests d reqs).gpiod_se_reset = false := by
      rw [runRequests_gpiod_se_reset]
      exact probe_session_line penv d hd
    have hret : (st54j_se_ioctl (runRequests d reqs) ST54J_SE_RESET arg).ret = 0 := by
      simp [st54j_se_ioctl, mutex_lock, hline]
    refine ⟨hline, hret, ?_⟩
    rw [hret]
    decide

/-- Witness of C13: without the reset line setup returns `-ENODEV` and hands
out nothing; after a good setup, an open, a refused open and a release, the
reset command returns `0`. -/
theorem no_partial_session_witness :
    IS_ERR noLineProbeEnv.gpiod_get = true ∧
    (st54j_se_probe noLineProbeEnv).session = none ∧
    (st54j_se_probe noLineProbeEnv).ret = -ENODEV ∧
    (st54j_se_ioctl
      (runRequests closedDev [Request.do_open, Request.do_open, Request.do_release])
      ST54J_SE_RESET 0).ret = 0 :=
  ⟨rfl,
   ((no_partial_session noLineProbeEnv [] 0).1 rfl).1,
   (no_partial_session noLineProbeEnv [] 0).2.1 rfl rfl rfl rfl,
   ((no_partial_session okProbeEnv
      [Request.do_open, Request.do_open, Request.do_release] 0).2.2.2 closedDev rfl).2.1⟩

/-! ## Lock discipline -/

theorem lockWalk_body (body rest : List Event)
    (h : ∀ e ∈ body, e ≠ Event.mutex_lock ∧ e ≠ Event.mutex_unlock) :
    lockWalk true (body ++ rest) = lockWalk true rest := by
  induction body with
  | nil => rfl
  | cons e t ih =>
    have he := h e (List.mem_cons_self e t)
    have ht := ih (fun x hx => h x (List.mem_cons_of_mem e hx))
    cases e <;> simp_all [lockWalk]

theorem lockCount_body (body rest : List Event)
    (h : ∀ e ∈ body, e ≠ Event.mutex_lock ∧ e ≠ Event.mutex_unlock) :
    lockCount (body ++ rest) = lockCount rest := by
  induction body with
  | nil => rfl
  | cons e t ih =>
    have he := h e (List.mem_cons_self e t)
    have ht := ih (fun x hx => h x (List.mem_cons_of_mem e hx))
    cases e <;> simp_all [lockCount]

/-- A body that does not touch the mutex, between taking and releasing it. -/
theorem bracket_walk (body : List Event)
    (h : ∀ e ∈ body, e ≠ Event.mutex_lock ∧ e ≠ Event.mutex_unlock) :
    lockWalk false ([Event.mutex_lock] ++ body ++ [Event.mutex_unlock]) = some false ∧
    lockCount ([Event.mutex_lock] ++ body ++ [Event.mutex_unlock]) ≤ 1 := by
  constructor
  · show lockWalk true (body ++ [Event.mutex_unlock]) = some false
    rw [lockWalk_body _ _ h]
    rfl
  · show lockCount (body ++ [Event.mutex_unlock]) + 1 ≤ 1
    rw [lockCount_body _ _ h]
    exact Nat.le_refl 1

/-- The write loop never touches the mutex, whatever the copies and the bus
answer. -/
theorem write_loop_events (B : Nat) (hpos : 0 < B) (env : Env) (umem : Nat → Byte)
    (len : Nat) : ∀ (bytes ubuf call : Nat) (tx : Nat → Byte),
    ∀ e ∈ (st54j_se_write_loop B hpos env umem len ubuf bytes call tx).2,
      e ≠ Event.mutex_lock ∧ e ≠ Event.mutex_unlock := by
  intro bytes
  induction bytes using Nat.strong_induction_on with
  | _ bytes ih =>
    intro ubuf call tx e he
    by_cases hb : 0 < bytes
    · rw [write_loop_step B hpos env umem len ubuf bytes call tx hb] at he
      have hlt : bytes - min bytes B < bytes := by omega
      split at he
      · simp at he; subst he; simp
      · split at he
        · simp at he
          rcases he with he | he <;> subst he <;> simp
        · simp only [emit, List.mem_append, List.mem_cons, List.mem_singleton,
            List.not_mem_nil, or_false] at he
          rcases he with (he | he) | he
          · subst he; simp
          · subst he; simp
          · exact ih _ hlt _ _ _ e he
    · have h0 : bytes = 0 := by omega
      subst h0
      rw [write_loop_done] at he
      simp at he

/-- The read loop never touches the mutex, whatever the bus and the copies
answer. -/
theorem read_loop_events (B : Nat) (hpos : 0 < B) (env : Env) (len : Nat) :
    ∀ (bytes : Nat) (umem : Nat → Byte) (ubuf call : Nat) (rx : Nat → Byte),
    ∀ e ∈ (st54j_se_read_loop B hpos env umem len ubuf bytes call rx).2.2,
      e ≠ Event.mutex_lock ∧ e ≠ Event.mutex_unlock := by
  intro bytes
  induction bytes using Nat.strong_induction_on with
  | _ bytes ih =>
    intro umem ubuf call rx e he
    by_cases hb : 0 < bytes
    · rw [read_loop_step B hpos env umem len ubuf bytes call rx hb] at he
      have hlt : bytes - min bytes B < bytes := by omega
      split at he
      · simp at he; subst he; simp
      · split at he
        · simp at he
          rcases he with he | he <;> subst he <;> simp
        · simp only [emitR, List.mem_append, List.mem_cons, List.mem_singleton,
            List.not_mem_nil, or_false] at he
          rcases he with (he | he) | he
          · subst he; simp
          · subst he; simp
          · exact ih _ hlt _ _ _ _ e he
    · have h0 : bytes = 0 := by omega
      subst h0
      rw [read_loop_done] at he
      simp at he

/-- C15: a write, a read and an ioctl started with the mutex free, whatever
the length, the command, the answers of the copies and of the bus and the
state of the reset descriptor: along the trace every event other than taking
and releasing the mutex happens while the mutex is held, the mutex is never
taken while held nor released while free, it is taken at most once, and it is
free at the end of the trace and in the session that is returned. -/
theorem lock_discipline (dev : st54j_se_dev) (env : Env) (umem : Nat → Byte)
    (len cmd arg : Nat) (hfree : dev.mutex_locked = false) :
    (lockWalk dev.mutex_locked (st54j_se_write dev env umem len).trace = some false ∧
      lockCount (st54j_se_write dev env umem len).trace ≤ 1 ∧
      (st54j_se_write dev env umem len).dev.mutex_locked = false) ∧
    (lockWalk dev.mutex_locked (st54j_se_read dev env umem len).trace = some false ∧
      lockCount (st54j_se_read dev env umem len).trace ≤ 1 ∧
      (st54j_se_read dev env umem len).dev.mutex_locked = false) ∧
    (lockWalk dev.mutex_locked (st54j_se_ioctl dev cmd arg).trace = some false ∧
      lockCount (st54j_se_ioctl dev cmd arg).trace ≤ 1 ∧
      (st54j_se_ioctl dev cmd arg).dev.mutex_locked = false) := by
  rw [hfree]
  refine ⟨?_, ?_, ?_⟩
  · have hev := write_loop_events ST54_MAX_BUF (by decide) env umem len len 0 0 env.tx_buf_init
    simp only [st54j_se_write, st54j_se_write_chunked]
    split
    · exact ⟨rfl, Nat.zero_le 1, hfree⟩
    · exact ⟨(bracket_walk _ hev).1, (bracket_walk _ hev).2, rfl⟩
  · have hev := read_loop_events ST54_MAX_BUF (by decide) env len len umem 0 0 (fun _ => 0)
    simp only [st54j_se_read, st54j_se_read_chunked]
    split
    · exact ⟨rfl, Nat.zero_le 1, hfree⟩
    · exact ⟨(bracket_walk _ hev).1, (bracket_walk _ hev).2, rfl⟩
  · simp only [st54j_se_ioctl]
    split
    · split
      · exact ⟨rfl, Nat.le_refl 1, rfl⟩
      · exact ⟨rfl, Nat.le_refl 1, rfl⟩
    · exact ⟨rfl, Nat.zero_le 1, hfree⟩

/-- Witness of C15: a 600-byte write whose second copy fails, a 600-byte read
whose second bus read fails, and a reset without a reset line all leave the
mutex free. -/
theorem lock_discipline_witness :
    openDev.mutex_locked = false ∧
    lockWalk false (st54j_se_write openDev copyFailEnv (fun a => a % 256) 600).trace =
      some false ∧
    lockWalk false (st54j_se_read openDev busFailEnv (fun _ => 0) 600).trace = some false ∧
    lockWalk false (st54j_se_ioctl noLineDev ST54J_SE_RESET 0).trace = some false :=
  ⟨rfl,
   (lock_discipline openDev copyFailEnv (fun a => a % 256) 600 0 0 rfl).1.1,
   (lock_discipline openDev busFailEnv (fun _ => 0) 600 0 0 rfl).2.1.1,
   (lock_discipline noLineDev okEnv (fun _ => 0) 0 ST54J_SE_RESET 0 rfl).2.2.1⟩

/-! ## Other commands -/

/-- C16: for every command other than `ST54J_SE_RESET` and every argument the
ioctl returns `0`, leaves the session as it is, and does nothing: the trace is
empty, so there is no line operation, no wait, no bus call and the mutex is
not taken. -/
theorem unknown_ioctl_is_accepted (dev : st54j_se_dev) (cmd arg : Nat)
    (hcmd : cmd ≠ ST54J_SE_RESET) :
    (st54j_se_ioctl dev cmd arg).ret = 0 ∧
    (st54j_se_ioctl dev cmd arg).dev = dev ∧
    (st54j_se_ioctl dev cmd arg).trace = [] ∧
    lineOps (st54j_se_ioctl dev cmd arg).trace = [] ∧
    busCalls (st54j_se_ioctl dev cmd arg).trace = 0 ∧
    lockCount (st54j_se_ioctl dev cmd arg).trace = 0 := by
  have h : st54j_se_ioctl dev cmd arg = { ret := 0, dev := dev, trace := [] } := by
    simp [st54j_se_ioctl, hcmd]
  rw [h]
  exact ⟨rfl, rfl, rfl, rfl, rfl, rfl⟩

/-- Witness of C16: command `0` with argument `5` on the open sample session. -/
theorem unknown_ioctl_is_accepted_witness :
    (0 : Nat) ≠ ST54J_SE_RESET ∧
    (st54j_se_ioctl openDev 0 5).ret = 0 ∧
    (st54j_se_ioctl openDev 0 5).dev = openDev ∧
    (st54j_se_ioctl openDev 0 5).trace = [] :=
  ⟨by decide,
   (unknown_ioctl_is_accepted openDev 0 5 (by decide)).1,
   (unknown_ioctl_is_accepted openDev 0 5 (by decide)).2.1,
   (unknown_ioctl_is_accepted openDev 0 5 (by decide)).2.2.1⟩

/-! ## The return value of a write -/

/-- C17: `st54j_se_write` leaves its loop with `ret = len`, a conversion to
`int`. For every `len` up to `INT_MAX` the conversion is exact, so a write in
which every copy and every bus write succeeds returns `len`, which is not
negative. The bound is tight: at `INT_MAX + 1` the conversion gives
`-2147483648`, a negative value. -/
theorem write_return_conversion (dev : st54j_se_dev) (env : Env) (umem : Nat → Byte)
    (len ubuf call : Nat) (tx : Nat → Byte) :
    (st54j_se_write_loop ST54_MAX_BUF (by decide) env umem len ubuf 0 call tx).1 =
      int_of_ulong len ∧
    (len ≤ INT_MAX → int_of_ulong len = (len : Int) ∧ 0 ≤ int_of_ulong len) ∧
    (len ≤ INT_MAX →
      (∀ i, i < blockCount ST54_MAX_BUF len →
        env.copy_from_user i (i * ST54_MAX_BUF) (blockSize ST54_MAX_BUF len i) = 0) →
      (∀ i, i < blockCount ST54_MAX_BUF len →
        0 ≤ env.spi_write i
          (bytesAt umem (i * ST54_MAX_BUF) (blockSize ST54_MAX_BUF len i))) →
      (st54j_se_write dev env umem len).ret = int_of_ulong len ∧
      (st54j_se_write dev env umem len).ret = (len : Int) ∧
      0 ≤ (st54j_se_write dev env umem len).ret) ∧
    int_of_ulong (INT_MAX + 1) = -2147483648 ∧
    int_of_ulong (INT_MAX + 1) < 0 := by
  refine ⟨?_, ?_, ?_, by decide, by decide⟩
  · rw [write_loop_done]
  · intro h
    rw [int_of_ulong_eq len h]
    exact ⟨rfl, Int.ofNat_nonneg len⟩
  · intro h hc hs
    have key := write_chunked_ok ST54_MAX_BUF (by decide) dev env umem len h hc hs
    unfold st54j_se_write
    rw [key, int_of_ulong_eq len h]
    exact ⟨rfl, rfl, Int.ofNat_nonneg len⟩

/-- Witness of C17: at `INT_MAX` itself the conversion is exact. -/
theorem write_return_conversion_witness :
    (2147483647 : Nat) ≤ INT_MAX ∧
    int_of_ulong 2147483647 = 2147483647 ∧
    (st54j_se_write openDev okEnv (fun a => a % 256) 600).ret = 600 :=
  ⟨by decide,
   ((write_return_conversion openDev okEnv (fun _ => 0) 2147483647 0 0 (fun _ => 0)).2.1
      (by decide)).1,
   ((write_return_conversion openDev okEnv (fun a => a % 256) 600 0 0 (fun _ => 0)).2.2.1
      (by decide) (fun _ _ => rfl) (fun _ _ => Int.le_refl 0)).2.1⟩

end ST54J
